import Mathlib

/-!
Verification of the todo-ai-app core against its specification.

The TypeScript sources are shallowly embedded:
* text is modelled as `List Char` (`Str`);
* JavaScript numbers holding millisecond timestamps / durations are `Int`;
* `x || y` on numbers is modelled by `orElseNum` (falls through on `0`,
  mirroring JavaScript falsiness of `0`), and on optional numbers by
  `orDefault` (falls through on `none` and on `some 0`);
* optional fields become `Option`.
-/

namespace TodoApp

/-- Text is a list of characters. -/
abbrev Str := List Char

/-- JavaScript `a || b` for an optional number: `undefined` and `0` are falsy. -/
def orDefault (a : Option Int) (b : Int) : Int :=
  match a with
  | none => b
  | some v => if v = 0 then b else v

/-- JavaScript truthiness of an optional number (`undefined` and `0` are falsy). -/
def numTruthy (a : Option Int) : Bool :=
  match a with
  | none => false
  | some v => decide (v ≠ 0)

/-! ## Conflict detection (src/app/utils/conflict.ts) -/

/-- Task priority. -/
inductive Priority
  | high | medium | low
deriving DecidableEq, Repr

/-- Task lifecycle status. -/
inductive Status
  | pending | completed | archived
deriving DecidableEq, Repr

/-- The task record used by `detectConflicts` (conflict.ts lines 5-16). -/
structure CTask where
  id : Str
  text : Str
  done : Bool
  tag : Str
  createdAt : Int
  priority : Option Priority
  status : Status
  dueDate : Option Int
  estimatedDuration : Option Int
  startTime : Option Int
deriving DecidableEq, Repr

/-- Result record of `detectConflicts` (conflict.ts lines 18-22). -/
structure ConflictResult where
  hasConflict : Bool
  conflictingTasks : List CTask
  suggestedTime : Option Int
deriving DecidableEq, Repr

/-- Effective start: `task.startTime || task.dueDate` (JS falsy fallthrough). -/
def effStart (t : CTask) (due : Int) : Int :=
  orDefault t.startTime due

/-- Effective duration in minutes: `task.estimatedDuration || defaultDuration`. -/
def effDur (t : CTask) (defaultDuration : Int) : Int :=
  orDefault t.estimatedDuration defaultDuration

/-- The filter predicate of conflict.ts lines 39-56: skip completed/archived
tasks and tasks without (truthy) timing info, then test the three-clause
overlap disjunction. -/
def overlapsNew (taskStartTime taskEndTime : Int) (defaultDuration : Int)
    (task : CTask) : Bool :=
  if task.done then false
  else if task.status = Status.archived then false
  else
    match task.dueDate with
    | none => false
    | some d =>
      if d = 0 then false
      else
        let existingStartTime := effStart task d
        let existingEndTime := existingStartTime + effDur task defaultDuration * 60 * 1000
        decide (taskStartTime ≥ existingStartTime ∧ taskStartTime < existingEndTime) ||
        decide (taskEndTime > existingStartTime ∧ taskEndTime ≤ existingEndTime) ||
        decide (taskStartTime ≤ existingStartTime ∧ taskEndTime ≥ existingEndTime)

/-- Sort key of `findNextAvailableSlot`: `t.startTime || t.dueDate || 0`. -/
def sortKey (t : CTask) : Int := orDefault t.startTime (orDefault t.dueDate 0)

/-- The filter of `findNextAvailableSlot` line 89:
`t.dueDate && !t.done && t.status !== 'archived'`. -/
def schedulable (t : CTask) : Bool :=
  numTruthy t.dueDate && !t.done && decide (t.status ≠ Status.archived)

mutual

/-- `detectConflicts` (conflict.ts lines 27-74) with `findNextAvailableSlot`
(lines 79-129) inlined at its single call site (line 63).  The two functions
are mutually recursive in the source (`findNextAvailableSlot` line 97 calls
`detectConflicts` back), so the embedding is fuelled: `none` models the call
not terminating (JavaScript stack overflow).  `now` models `Date.now()`
(line 84). -/
def detectConflicts (fuel : Nat) (now : Int) (newTask : CTask)
    (existingTasks : List CTask) (defaultDuration : Int) : Option ConflictResult :=
  match fuel with
  | 0 => none
  | fuel + 1 =>
    -- If no due date (or falsy 0 due date), no conflict (line 33)
    match newTask.dueDate with
    | none => some { hasConflict := false, conflictingTasks := [], suggestedTime := none }
    | some due =>
      if due = 0 then
        some { hasConflict := false, conflictingTasks := [], suggestedTime := none }
      else
        let taskStartTime := effStart newTask due
        let taskEndTime := taskStartTime + effDur newTask defaultDuration * 60 * 1000
        let conflictingTasks :=
          existingTasks.filter (overlapsNew taskStartTime taskEndTime defaultDuration)
        if conflictingTasks.isEmpty then
          some { hasConflict := false, conflictingTasks := [], suggestedTime := none }
        else
          -- findNextAvailableSlot(newTask, existingTasks, est || defaultDuration)
          let durationMinutes := orDefault newTask.estimatedDuration defaultDuration
          let startTime := orDefault newTask.dueDate now
          let endTime := startTime + durationMinutes * 60 * 1000
          let sortedTasks := List.insertionSort
            (fun a b => sortKey a ≤ sortKey b) (existingTasks.filter schedulable)
          if sortedTasks.isEmpty then
            some { hasConflict := true, conflictingTasks := conflictingTasks,
                   suggestedTime := some startTime }
          else
            -- line 97: the recursive call back into detectConflicts
            match detectConflicts fuel now newTask sortedTasks durationMinutes with
            | none => none
            | some r =>
              if !r.hasConflict then
                some { hasConflict := true, conflictingTasks := conflictingTasks,
                       suggestedTime := some startTime }
              else
                match gapScan fuel now newTask sortedTasks durationMinutes endTime sortedTasks with
                | none => none
                | some s =>
                  some { hasConflict := true, conflictingTasks := conflictingTasks,
                         suggestedTime := some s }
termination_by (fuel, 0, 0)

/-- The gap-finding loop of `findNextAvailableSlot` (conflict.ts lines 103-128);
returns the final `currentEnd` when the loop ends without an early return. -/
def gapScan (fuel : Nat) (now : Int) (task : CTask) (sortedTasks : List CTask)
    (durationMinutes : Int) (currentEnd : Int) (rest : List CTask) : Option Int :=
  match rest with
  | [] => some currentEnd
  | existingTask :: rest =>
    let taskStart := orDefault existingTask.startTime (orDefault existingTask.dueDate 0)
    let taskEnd := taskStart + orDefault existingTask.estimatedDuration durationMinutes * 60 * 1000
    if currentEnd + durationMinutes * 60 * 1000 ≤ taskStart then
      let potentialTask := { task with startTime := some currentEnd, dueDate := some currentEnd }
      match detectConflicts fuel now potentialTask sortedTasks durationMinutes with
      | none => none
      | some r =>
        if !r.hasConflict then some currentEnd
        else gapScan fuel now task sortedTasks durationMinutes (max currentEnd taskEnd) rest
    else gapScan fuel now task sortedTasks durationMinutes (max currentEnd taskEnd) rest
termination_by (fuel, 1, rest.length)

end

/-- `List.insertionSort` leaves a singleton unchanged. -/
theorem insertionSort_singleton (a : α) (r : α → α → Prop) [DecidableRel r] :
    List.insertionSort r [a] = [a] := by
  simp [List.insertionSort, List.orderedInsert]

/-- Stationarity of the mutual recursion on a single conflicting task: when
the candidate's effective duration equals the ambient default (so the inner
`detectConflicts` call at conflict.ts line 97 receives exactly the same
arguments again), the recursion never terminates, for any fuel. -/
theorem detectConflicts_diverges (t e : CTask) (due dur : Int)
    (hdue : t.dueDate = some due) (hz : due ≠ 0)
    (hsched : schedulable e = true)
    (hdur : orDefault t.estimatedDuration dur = dur)
    (hover : overlapsNew (effStart t due)
      (effStart t due + effDur t dur * 60 * 1000) dur e = true) :
    ∀ fuel now, detectConflicts fuel now t [e] dur = none := by
  intro fuel
  induction fuel with
  | zero => intro now; simp [detectConflicts]
  | succ n ih =>
    intro now
    have hover' : overlapsNew (effStart t due) (effStart t due + dur * 60 * 1000) dur e
        = true := by
      have hd : effDur t dur = dur := hdur
      rwa [hd] at hover
    rw [detectConflicts, hdue]
    simp only [if_neg hz, effDur, hdur]
    simp [List.filter, hover', hsched, insertionSort_singleton, ih now]

section ConflictWitnessTasks

/-- Concrete candidate task for the C2 failing input. -/
def c2cand : CTask :=
  { id := "cand".toList, text := "write report".toList, done := false,
    tag := "work".toList, createdAt := 0, priority := none,
    status := Status.pending, dueDate := some 1000000,
    estimatedDuration := none, startTime := none }

/-- Concrete existing task (identical one-hour window) for the C2 failing input. -/
def c2ex : CTask :=
  { id := "ex".toList, text := "standup".toList, done := false,
    tag := "work".toList, createdAt := 0, priority := none,
    status := Status.pending, dueDate := some 1000000,
    estimatedDuration := none, startTime := none }

/-- Concrete scheduled task for the C10 failing input (checked against a
store that still contains it). -/
def c10task : CTask :=
  { id := "self".toList, text := "meeting".toList, done := false,
    tag := "work".toList, createdAt := 0, priority := none,
    status := Status.pending, dueDate := some 2000000,
    estimatedDuration := none, startTime := none }

end ConflictWitnessTasks

/-- C2: at the failing input — a candidate whose one-hour window coincides
with an existing pending task's window — the existing task does satisfy the
claimed three-clause overlap disjunction (second conjunct), but
`detectConflicts` never returns: the inline `findNextAvailableSlot` calls
`detectConflicts` back with identical arguments, so for every recursion
budget the computation runs out of stack instead of reporting
`hasConflict = true` (first conjunct). -/
theorem C2_detectConflicts_diverges_on_conflict :
    (∀ fuel now, detectConflicts fuel now c2cand [c2ex] 60 = none) ∧
    overlapsNew (effStart c2cand 1000000)
      (effStart c2cand 1000000 + effDur c2cand 60 * 60 * 1000) 60 c2ex = true := by
  constructor
  · exact detectConflicts_diverges c2cand c2ex 1000000 60 rfl (by decide)
      (by decide) (by decide) (by decide)
  · decide

/-- C10: the overlap filter indeed does not exclude the candidate itself
(second conjunct: a pending, dated task overlaps itself), but the claimed
call `detectConflicts(t, existing)` with `t` a member of `existing` never
returns for any recursion budget — it diverges via `findNextAvailableSlot`
instead of reporting the self-conflict (first conjunct). -/
theorem C10_self_conflict_diverges :
    (∀ fuel now, detectConflicts fuel now c10task [c10task] 60 = none) ∧
    overlapsNew (effStart c10task 2000000)
      (effStart c10task 2000000 + effDur c10task 60 * 60 * 1000) 60 c10task = true := by
  constructor
  · exact detectConflicts_diverges c10task c10task 2000000 60 rfl (by decide)
      (by decide) (by decide) (by decide)
  · decide

/-! ## Civil calendar model of the JavaScript `Date` day-level operations

A timestamp is represented by its local civil decomposition: a `CDate`
(year, 0-based month, 1-based day of month) plus a milliseconds-of-day
offset.  `new Date(ms)` is the identity on this representation; `getTime()`
is `toMs`.  `setDate`/`setMonth` re-normalize out-of-range fields exactly as
the JavaScript `Date` constructor does (months roll into years, day
overflow rolls into following months). -/

/-- Civil date: `year`, `month` (0-based, as in JavaScript), `day`
(1-based). -/
structure CDate where
  year : Int
  month : Int
  day : Int
deriving DecidableEq, Repr

/-- Gregorian leap year. -/
def isLeap (y : Int) : Bool :=
  decide ((y % 4 = 0 ∧ y % 100 ≠ 0) ∨ y % 400 = 0)

/-- Length of month `m` (0-based) in year `y`. -/
def monthLen (y m : Int) : Int :=
  if m = 1 then (if isLeap y then 29 else 28)
  else if m = 3 ∨ m = 5 ∨ m = 8 ∨ m = 10 then 30
  else 31

theorem monthLen_ge (y m : Int) : 28 ≤ monthLen y m := by
  unfold monthLen
  split_ifs <;> omega

/-- Days since the Unix epoch of the civil date `(y, m0, d)` with `m0`
0-based in `[0, 12)` (Howard Hinnant's `days_from_civil` algorithm; `/` and
`%` on `Int` are Euclidean, which on a positive divisor is floor
division). -/
def daysFromCivil (y m0 d : Int) : Int :=
  let m := m0 + 1
  let y' := if m ≤ 2 then y - 1 else y
  let era := y' / 400
  let yoe := y' - era * 400
  let mp := (m + 9) % 12
  let doy := (153 * mp + 2) / 5 + d - 1
  let doe := yoe * 365 + yoe / 4 - yoe / 100 + doy
  era * 146097 + doe - 719468

/-- Day number of a `CDate`. -/
def toDays (c : CDate) : Int := daysFromCivil c.year c.month c.day

/-- Millisecond timestamp of a `CDate` with a time-of-day offset. -/
def toMs (c : CDate) (tod : Int) : Int := toDays c * 86400000 + tod

/-- `getDay()`: weekday, 0 = Sunday (the epoch day 0 was a Thursday). -/
def weekdayOf (z : Int) : Int := (z + 4) % 7

/-- Weekday of a `CDate` (JavaScript `getDay()`). -/
def getDay (c : CDate) : Int := weekdayOf (toDays c)

/-- Successor month with year carry. -/
def nextMonth (y m : Int) : Int × Int := if m = 11 then (y + 1, 0) else (y, m + 1)

/-- Predecessor month with year borrow. -/
def prevMonth (y m : Int) : Int × Int := if m = 0 then (y - 1, 11) else (y, m - 1)

/-- Roll an overflowing day-of-month forward through the following months
(the forward half of the `Date` constructor's normalization); the fuel is a
structural bound on the number of month steps (each step removes at least
28 from the day), keeping the function kernel-reducible. -/
def rollFGo : Nat → Int → Int → Int → Int × Int × Int
  | 0, y, m, d => (y, m, d)
  | fuel + 1, y, m, d =>
    if monthLen y m < d then
      rollFGo fuel (nextMonth y m).1 (nextMonth y m).2 (d - monthLen y m)
    else (y, m, d)

/-- Forward day-of-month normalization. -/
def rollF (y m d : Int) : Int × Int × Int := rollFGo d.toNat y m d

/-- Roll a non-positive day-of-month backward through the preceding months
(the backward half of the `Date` constructor's normalization). -/
def rollBGo : Nat → Int → Int → Int → Int × Int × Int
  | 0, y, m, d => (y, m, d)
  | fuel + 1, y, m, d =>
    if d < 1 then
      rollBGo fuel (prevMonth y m).1 (prevMonth y m).2
        (d + monthLen (prevMonth y m).1 (prevMonth y m).2)
    else (y, m, d)

/-- Backward day-of-month normalization. -/
def rollB (y m d : Int) : Int × Int × Int := rollBGo (1 - d).toNat y m d

/-- `new Date(y, m, d)` normalization: months roll into years, then the day
of month is normalized through the civil calendar. -/
def mkCDate (y m d : Int) : CDate :=
  let y1 := y + m / 12
  let m1 := m % 12
  let r := if d < 1 then rollB y1 m1 d else rollF y1 m1 d
  ⟨r.1, r.2.1, r.2.2⟩

/-- `date.setDate(n)`. -/
def setDate (c : CDate) (n : Int) : CDate := mkCDate c.year c.month n

/-- `date.setMonth(m)`. -/
def setMonth (c : CDate) (m : Int) : CDate := mkCDate c.year m c.day

/-- A `CDate` in canonical form: month in `[0, 12)`, day in
`[1, monthLen]`. -/
def Valid (c : CDate) : Prop :=
  0 ≤ c.month ∧ c.month < 12 ∧ 1 ≤ c.day ∧ c.day ≤ monthLen c.year c.month

instance (c : CDate) : Decidable (Valid c) := by
  unfold Valid
  exact inferInstance

/-- Stepping to the first of the next month adds the current month's
length to the day number. -/
theorem month_step (y m : Int) (h0 : 0 ≤ m) (h1 : m < 12) :
    daysFromCivil (nextMonth y m).1 (nextMonth y m).2 1
      = daysFromCivil y m 1 + monthLen y m := by
  interval_cases m <;>
    simp [nextMonth, daysFromCivil, monthLen, isLeap, decide_eq_true_eq] <;>
    norm_num <;>
    first
    | (split_ifs <;> omega)
    | omega

/-- `daysFromCivil` is linear in the day argument. -/
theorem daysFromCivil_day (y m d : Int) :
    daysFromCivil y m d = daysFromCivil y m 1 + (d - 1) := by
  simp only [daysFromCivil]
  ring

/-- The next-month step stays inside the month range. -/
theorem nextMonth_range (y m : Int) (h0 : 0 ≤ m) (h1 : m < 12) :
    0 ≤ (nextMonth y m).2 ∧ (nextMonth y m).2 < 12 := by
  unfold nextMonth
  split_ifs <;> simp <;> omega

/-- Forward day-normalization with sufficient fuel preserves the day number
and produces a canonical date. -/
theorem rollFGo_correct (fuel : Nat) :
    ∀ (y m d : Int), 0 ≤ m → m < 12 → 1 ≤ d → d ≤ (fuel : Int) →
    daysFromCivil (rollFGo fuel y m d).1 (rollFGo fuel y m d).2.1 (rollFGo fuel y m d).2.2
      = daysFromCivil y m d
    ∧ 0 ≤ (rollFGo fuel y m d).2.1 ∧ (rollFGo fuel y m d).2.1 < 12
    ∧ 1 ≤ (rollFGo fuel y m d).2.2
    ∧ (rollFGo fuel y m d).2.2 ≤ monthLen (rollFGo fuel y m d).1 (rollFGo fuel y m d).2.1 := by
  induction fuel with
  | zero =>
    intro y m d h0 h1 hd hfuel
    exfalso
    simp only [Nat.cast_zero] at hfuel
    omega
  | succ n ih =>
    intro y m d h0 h1 hd hfuel
    have h28 := monthLen_ge y m
    by_cases h : monthLen y m < d
    · have hnext := nextMonth_range y m h0 h1
      have ih' := ih (nextMonth y m).1 (nextMonth y m).2 (d - monthLen y m)
        hnext.1 hnext.2 (by omega) (by push_cast at hfuel ⊢; omega)
      simp only [rollFGo, if_pos h]
      refine ⟨?_, ih'.2⟩
      rw [ih'.1]
      have e1 := daysFromCivil_day (nextMonth y m).1 (nextMonth y m).2 (d - monthLen y m)
      have e2 := month_step y m h0 h1
      have e3 := daysFromCivil_day y m d
      omega
    · simp only [rollFGo, if_neg h]
      refine ⟨trivial, h0, h1, hd, ?_⟩
      show d ≤ monthLen y m
      omega

/-- Forward day-normalization preserves the day number and produces a
canonical date. -/
theorem rollF_correct (y m d : Int) (h0 : 0 ≤ m) (h1 : m < 12) (hd : 1 ≤ d) :
    daysFromCivil (rollF y m d).1 (rollF y m d).2.1 (rollF y m d).2.2
      = daysFromCivil y m d
    ∧ 0 ≤ (rollF y m d).2.1 ∧ (rollF y m d).2.1 < 12
    ∧ 1 ≤ (rollF y m d).2.2
    ∧ (rollF y m d).2.2 ≤ monthLen (rollF y m d).1 (rollF y m d).2.1 := by
  have := rollFGo_correct d.toNat y m d h0 h1 hd (by omega)
  simpa [rollF] using this

/-- `setDate(getDate() + k)` on a canonical date advances the day number by
exactly `k` and yields a canonical date, for `k ≥ 0`. -/
theorem setDate_adds (c : CDate) (h : Valid c) (k : Int) (hk : 0 ≤ k) :
    toDays (setDate c (c.day + k)) = toDays c + k ∧ Valid (setDate c (c.day + k)) := by
  obtain ⟨hm0, hm1, hd0, hd1⟩ := h
  have hdvd : c.month / 12 = 0 := by omega
  have hmod : c.month % 12 = c.month := by omega
  have hge : ¬(c.day + k < 1) := by omega
  have hr := rollF_correct c.year c.month (c.day + k) hm0 hm1 (by omega)
  unfold setDate mkCDate
  simp only [hdvd, hmod, add_zero, if_neg hge]
  constructor
  · show daysFromCivil (rollF c.year c.month (c.day + k)).1 _ _ = _
    rw [hr.1, toDays, daysFromCivil_day c.year c.month (c.day + k),
      daysFromCivil_day c.year c.month c.day]
    ring
  · exact ⟨hr.2.1, hr.2.2.1, hr.2.2.2.1, hr.2.2.2.2⟩

/-! ## Task store and its mutation operations (src/app/page.tsx) -/

/-- Recurrence kind. -/
inductive RecType
  | daily | weekly | monthly | custom
deriving DecidableEq, Repr

/-- Recurrence rule attached to a task. -/
structure Recurring where
  type : RecType
  interval : Int
  daysOfWeek : Option (List Int)
  endDate : Option Int
deriving DecidableEq, Repr

/-- Subtask record. -/
structure Subtask where
  id : Str
  text : Str
  done : Bool
deriving DecidableEq, Repr

/-- Reminder kind: absolute wall-clock time or relative to the due date. -/
inductive RemType
  | absolute | relative
deriving DecidableEq, Repr

/-- Reminder record. -/
structure Reminder where
  id : Str
  time : Int
  notified : Bool
  type : RemType
deriving DecidableEq, Repr

/-- The task record of page.tsx (lines 28-58). -/
structure Task where
  id : Str
  text : Str
  done : Bool
  tag : Option Str
  tags : Option (List Str)
  createdAt : Int
  priority : Option Priority
  status : Status
  dueDate : Option (CDate × Int)
  notes : Option Str
  subtasks : Option (List Subtask)
  recurring : Option Recurring
  reminders : Option (List Reminder)
  project : Option Str
  category : Option Str
deriving DecidableEq, Repr

/-- The user-visible feedback strings produced by `showFeedback`, modelled as
tagged data. -/
inductive Feedback
  | completedTasks (count : Nat) (search : Str)
  | noMatchingIncomplete (search : Str)
  | deletedTasks (count : Nat) (search : Str)
  | noMatchingTasks (search : Str)
  | updatedTagFor (tag : Str) (count : Nat)
  | setPriorityFor (p : Priority) (count : Nat)
  | updatedDueDateFor (count : Nat)
  | archivedTasks (count : Nat)
  | noCompletedToArchive
deriving DecidableEq, Repr

/-- Lower-casing of text (`String.prototype.toLowerCase`). -/
def lowerStr (s : Str) : Str := s.map Char.toLower

/-- `haystack.includes(needle)`: substring containment. -/
def includesSub (haystack needle : Str) : Bool :=
  decide (needle <:+: haystack)

/-- `task.text.toLowerCase().includes(lowerSearchText)`. -/
def matchesSearch (lowerSearchText : Str) (t : Task) : Bool :=
  includesSub (lowerStr t.text) lowerSearchText

/-- The loop body of `tickTasksByText` (page.tsx lines 466-475), threading
the mutable `modifiedCount`. -/
def tickGo (ls : Str) (tickAll : Bool) (count : Nat) : List Task → List Task × Nat
  | [] => ([], count)
  | t :: rest =>
    if matchesSearch ls t && !t.done then
      if !tickAll && count > 0 then
        (t :: (tickGo ls tickAll count rest).1, (tickGo ls tickAll count rest).2)
      else
        ({ t with done := true } :: (tickGo ls tickAll (count + 1) rest).1,
         (tickGo ls tickAll (count + 1) rest).2)
    else
      (t :: (tickGo ls tickAll count rest).1, (tickGo ls tickAll count rest).2)

/-- `tickTasksByText` (page.tsx lines 462-483). -/
def tickTasksByText (tasks : List Task) (searchText : Str) (tickAll : Bool) :
    List Task × Feedback :=
  let r := tickGo (lowerStr searchText) tickAll 0 tasks
  if r.2 > 0 then (r.1, Feedback.completedTasks r.2 searchText)
  else (r.1, Feedback.noMatchingIncomplete searchText)

/-- The loop of `deleteTasksByText` (page.tsx lines 490-501), building
`tasksToKeep` and threading `deletedCount`. -/
def deleteGo (ls : Str) (deleteAll : Bool) (count : Nat) : List Task → List Task × Nat
  | [] => ([], count)
  | t :: rest =>
    if matchesSearch ls t then
      if !deleteAll && count > 0 then
        (t :: (deleteGo ls deleteAll count rest).1, (deleteGo ls deleteAll count rest).2)
      else
        deleteGo ls deleteAll (count + 1) rest
    else
      (t :: (deleteGo ls deleteAll count rest).1, (deleteGo ls deleteAll count rest).2)

/-- `deleteTasksByText` (page.tsx lines 485-510); when nothing matched,
`setTasks` is not called, so the original list is kept. -/
def deleteTasksByText (tasks : List Task) (searchText : Str) (deleteAll : Bool) :
    List Task × Feedback :=
  let r := deleteGo (lowerStr searchText) deleteAll 0 tasks
  if r.2 > 0 then (r.1, Feedback.deletedTasks r.2 searchText)
  else (tasks, Feedback.noMatchingTasks searchText)

/-- Shared shape of `updateTaskTag` / `updateTaskPriority` / `handleDueDate`:
`tasks.map` applying `g` to every task matched by `p`, threading the mutable
`modifiedCount`. -/
def mapCount (p : Task → Bool) (g : Task → Task) (count : Nat) :
    List Task → List Task × Nat
  | [] => ([], count)
  | t :: rest =>
    if p t then
      (g t :: (mapCount p g (count + 1) rest).1, (mapCount p g (count + 1) rest).2)
    else
      (t :: (mapCount p g count rest).1, (mapCount p g count rest).2)

/-- `updateTaskTag` (page.tsx lines 512-529): every matching task gets the
new tag. -/
def updateTaskTag (tasks : List Task) (searchText newTag : Str) :
    List Task × Feedback :=
  let r := mapCount (matchesSearch (lowerStr searchText))
    (fun t => { t with tag := some newTag }) 0 tasks
  if r.2 > 0 then (r.1, Feedback.updatedTagFor newTag r.2)
  else (r.1, Feedback.noMatchingTasks searchText)

/-- `updateTaskPriority` (page.tsx lines 531-548). -/
def updateTaskPriority (tasks : List Task) (searchText : Str) (priority : Priority) :
    List Task × Feedback :=
  let r := mapCount (matchesSearch (lowerStr searchText))
    (fun t => { t with priority := some priority }) 0 tasks
  if r.2 > 0 then (r.1, Feedback.setPriorityFor priority r.2)
  else (r.1, Feedback.noMatchingTasks searchText)

/-- `handleDueDate` (page.tsx lines 265-283). -/
def handleDueDate (tasks : List Task) (searchText : Str) (dueDate : Option (CDate × Int)) :
    List Task × Feedback :=
  let r := mapCount (matchesSearch (lowerStr searchText))
    (fun t => { t with dueDate := dueDate }) 0 tasks
  if r.2 > 0 then (r.1, Feedback.updatedDueDateFor r.2)
  else (r.1, Feedback.noMatchingTasks searchText)

/-- `toggleTask` (page.tsx lines 246-248): flips `done` of the task with the
given id; `status` is not touched. -/
def toggleTask (tasks : List Task) (id : Str) : List Task :=
  tasks.map fun t => if t.id = id then { t with done := !t.done } else t

/-- The `BatchActions` `onArchive` handler (page.tsx lines 1003-1011): every
`done` task gets `status := archived`; `done` is not touched. -/
def batchArchive (tasks : List Task) : List Task × Feedback :=
  let completedTasks := tasks.filter fun t => t.done
  if completedTasks.length > 0 then
    (tasks.map fun t => if t.done then { t with status := Status.archived } else t,
     Feedback.archivedTasks completedTasks.length)
  else (tasks, Feedback.noCompletedToArchive)

/-! ### Specification-side descriptions of the mutation operations -/

/-- Specification form: complete exactly the first not-yet-done matching
task, leave everything else unchanged. -/
def setFirstDone (ls : Str) : List Task → List Task
  | [] => []
  | t :: rest =>
    if matchesSearch ls t && !t.done then { t with done := true } :: rest
    else t :: setFirstDone ls rest

/-- Specification form: remove exactly the first matching task. -/
def eraseFirstMatch (ls : Str) : List Task → List Task
  | [] => []
  | t :: rest =>
    if matchesSearch ls t then rest else t :: eraseFirstMatch ls rest

/-- Once `modifiedCount` is positive and `tickAll` is off, the tick scan
keeps visiting tasks but mutates none of them. -/
theorem tickGo_pos (ls : Str) (c : Nat) (hc : 0 < c) :
    ∀ l : List Task, tickGo ls false c l = (l, c) := by
  intro l
  induction l with
  | nil => rfl
  | cons t rest ih =>
    by_cases h : (matchesSearch ls t && !t.done) = true
    · simp [tickGo, h, hc, ih]
    · simp [tickGo, h, ih]

/-- Characterization of the tick scan started with count 0 and `tickAll`
off: it performs `setFirstDone` and counts whether a mutation happened. -/
theorem tickGo_zero (ls : Str) :
    ∀ l : List Task, tickGo ls false 0 l =
      (setFirstDone ls l, if l.any (fun t => matchesSearch ls t && !t.done) then 1 else 0) := by
  intro l
  induction l with
  | nil => rfl
  | cons t rest ih =>
    by_cases h : (matchesSearch ls t && !t.done) = true
    · simp [tickGo, h, setFirstDone, tickGo_pos ls 1 (by omega)]
    · simp [tickGo, h, setFirstDone, ih]

/-- Once `deletedCount` is positive and `deleteAll` is off, the delete scan
keeps every remaining task. -/
theorem deleteGo_pos (ls : Str) (c : Nat) (hc : 0 < c) :
    ∀ l : List Task, deleteGo ls false c l = (l, c) := by
  intro l
  induction l with
  | nil => rfl
  | cons t rest ih =>
    by_cases h : matchesSearch ls t = true
    · simp [deleteGo, h, hc, ih]
    · simp [deleteGo, h, ih]

/-- Characterization of the delete scan started with count 0 and `deleteAll`
off: it erases the first match. -/
theorem deleteGo_zero (ls : Str) :
    ∀ l : List Task, deleteGo ls false 0 l =
      (eraseFirstMatch ls l, if l.any (matchesSearch ls) then 1 else 0) := by
  intro l
  induction l with
  | nil => rfl
  | cons t rest ih =>
    by_cases h : matchesSearch ls t = true
    · simp [deleteGo, h, eraseFirstMatch, deleteGo_pos ls 1 (by omega)]
    · simp [deleteGo, h, eraseFirstMatch, ih]

/-- The counting map underlying tag/priority/due updates applies the update
to every matching task. -/
theorem mapCount_char (p : Task → Bool) (g : Task → Task) :
    ∀ (l : List Task) (c : Nat), mapCount p g c l =
      (l.map (fun t => if p t then g t else t), c + l.countP p) := by
  intro l
  induction l with
  | nil => intro c; simp [mapCount]
  | cons t rest ih =>
    intro c
    by_cases h : p t = true
    · simp [mapCount, h, ih, List.countP_cons]
      omega
    · simp [mapCount, h, ih, List.countP_cons]

/-- With no matching incomplete task, `setFirstDone` changes nothing. -/
theorem setFirstDone_of_none (ls : Str) :
    ∀ l : List Task, (∀ t ∈ l, ¬(matchesSearch ls t = true ∧ t.done = false)) →
      setFirstDone ls l = l := by
  intro l
  induction l with
  | nil => intro _; rfl
  | cons t rest ih =>
    intro h
    have ht : (matchesSearch ls t && !t.done) = false := by
      have := h t (List.mem_cons_self t rest)
      simp only [Bool.and_eq_false_iff]
      by_cases hm : matchesSearch ls t = true
      · right
        by_cases hd : t.done = true
        · simp [hd]
        · exact absurd ⟨hm, by simpa using hd⟩ this
      · left
        simpa using hm
    simp only [setFirstDone, ht]
    simp [ih fun u hu => h u (List.mem_cons_of_mem t hu)]

/-- With no matching task, `eraseFirstMatch` changes nothing. -/
theorem eraseFirstMatch_of_none (ls : Str) :
    ∀ l : List Task, (∀ t ∈ l, matchesSearch ls t = false) →
      eraseFirstMatch ls l = l := by
  intro l
  induction l with
  | nil => intro _; rfl
  | cons t rest ih =>
    intro h
    simp only [eraseFirstMatch, h t (List.mem_cons_self t rest)]
    simp [ih fun u hu => h u (List.mem_cons_of_mem t hu)]

/-- With no matching task, the conditional map is the identity. -/
theorem map_if_of_none (p : Task → Bool) (g : Task → Task) :
    ∀ l : List Task, (∀ t ∈ l, p t = false) →
      l.map (fun t => if p t then g t else t) = l := by
  intro l
  induction l with
  | nil => intro _; rfl
  | cons t rest ih =>
    intro h
    simp only [List.map_cons, h t (List.mem_cons_self t rest)]
    simp [ih fun u hu => h u (List.mem_cons_of_mem t hu)]

/-! ### C5 / C6 theorems -/

/-- A task with every optional field absent; concrete tasks below override
the fields they need. -/
def blankTask : Task :=
  { id := [], text := [], done := false, tag := none, tags := none,
    createdAt := 0, priority := none, status := Status.pending,
    dueDate := none, notes := none, subtasks := none, recurring := none,
    reminders := none, project := none, category := none }

/-- First task whose title contains "milk". -/
def milk1 : Task := { blankTask with id := "1".toList, text := "buy milk".toList }

/-- Second task whose title contains "milk". -/
def milk2 : Task := { blankTask with id := "2".toList, text := "drink milk".toList }

/-- C5, counterexample: the `tag` command (`updateTaskTag`) without the
"all" qualifier mutates EVERY matching task, not just the first one — over
the two-task store both "milk" tasks get the new tag, so the second matching
task is not left unchanged as the claim states. -/
theorem C5_tag_updates_every_match :
    (updateTaskTag [milk1, milk2] "milk".toList "food".toList).1
      = [{ milk1 with tag := some "food".toList },
         { milk2 with tag := some "food".toList }] ∧
    { milk2 with tag := some "food".toList } ≠ milk2 := by
  constructor
  · decide
  · decide

/-- C5, amended: `tick` (without "all") completes exactly the first
matching not-yet-done task and `delete` removes exactly the first matching
task, each leaving everything else unchanged and producing only a feedback
message when nothing matches; but `tag`, `priority` and `due`-by-text
commands mutate every matching task (no first-match stop). -/
theorem C5_search_commands_amended :
    ∀ (tasks : List Task) (s : Str),
      (tickTasksByText tasks s false).1 = setFirstDone (lowerStr s) tasks ∧
      ((∀ t ∈ tasks, ¬(matchesSearch (lowerStr s) t = true ∧ t.done = false)) →
        (tickTasksByText tasks s false).1 = tasks ∧
        (tickTasksByText tasks s false).2 = Feedback.noMatchingIncomplete s) ∧
      (deleteTasksByText tasks s false).1 = eraseFirstMatch (lowerStr s) tasks ∧
      ((∀ t ∈ tasks, matchesSearch (lowerStr s) t = false) →
        (deleteTasksByText tasks s false).1 = tasks ∧
        (deleteTasksByText tasks s false).2 = Feedback.noMatchingTasks s) ∧
      (∀ newTag, (updateTaskTag tasks s newTag).1
        = tasks.map (fun t => if matchesSearch (lowerStr s) t then
            { t with tag := some newTag } else t)) ∧
      (∀ p, (updateTaskPriority tasks s p).1
        = tasks.map (fun t => if matchesSearch (lowerStr s) t then
            { t with priority := some p } else t)) ∧
      (∀ d, (handleDueDate tasks s d).1
        = tasks.map (fun t => if matchesSearch (lowerStr s) t then
            { t with dueDate := d } else t)) ∧
      ((∀ t ∈ tasks, matchesSearch (lowerStr s) t = false) →
        ∀ newTag, (updateTaskTag tasks s newTag).1 = tasks ∧
          (updateTaskTag tasks s newTag).2 = Feedback.noMatchingTasks s) := by
  intro tasks s
  refine ⟨?_, ?_, ?_, ?_, ?_, ?_, ?_, ?_⟩
  · unfold tickTasksByText
    simp only [tickGo_zero]
    split <;> rfl
  · intro h
    have hany : tasks.any (fun t => matchesSearch (lowerStr s) t && !t.done) = false := by
      simp only [List.any_eq_false, Bool.and_eq_true, Bool.not_eq_true']
      exact h
    refine ⟨?_, ?_⟩ <;>
      · unfold tickTasksByText
        simp [tickGo_zero, hany, setFirstDone_of_none (lowerStr s) tasks h]
  · unfold deleteTasksByText
    simp only [deleteGo_zero]
    by_cases hany : tasks.any (matchesSearch (lowerStr s)) = true
    · simp [hany]
    · have hf : tasks.any (matchesSearch (lowerStr s)) = false := by
        simpa using hany
      have h' : ∀ t ∈ tasks, matchesSearch (lowerStr s) t = false := by
        simpa [List.any_eq_false] using hf
      simp [hf, eraseFirstMatch_of_none (lowerStr s) tasks h']
  · intro h
    have hany : tasks.any (matchesSearch (lowerStr s)) = false := by
      simp only [List.any_eq_false]
      intro t ht
      simp [h t ht]
    refine ⟨?_, ?_⟩ <;>
      · unfold deleteTasksByText
        simp [deleteGo_zero, hany]
  · intro newTag
    unfold updateTaskTag
    simp only [mapCount_char]
    split <;> rfl
  · intro p
    unfold updateTaskPriority
    simp only [mapCount_char]
    split <;> rfl
  · intro d
    unfold handleDueDate
    simp only [mapCount_char]
    split <;> rfl
  · intro h newTag
    have hcount : tasks.countP (matchesSearch (lowerStr s)) = 0 := by
      simp only [List.countP_eq_zero]
      intro t ht
      simp [h t ht]
    refine ⟨?_, ?_⟩ <;>
      · unfold updateTaskTag
        simp [mapCount_char, hcount, map_if_of_none (matchesSearch (lowerStr s)) _ tasks h]

/-- Witness for the amended C5 statement: over a concrete two-task store and
a non-matching search term, the no-match components apply with their
hypotheses discharged by evaluation. -/
theorem C5_search_commands_amended_witness :
    (tickTasksByText [milk1, milk2] "zzz".toList false).1 = [milk1, milk2] ∧
    (tickTasksByText [milk1, milk2] "zzz".toList false).2
      = Feedback.noMatchingIncomplete "zzz".toList ∧
    (deleteTasksByText [milk1, milk2] "zzz".toList false).1 = [milk1, milk2] ∧
    (updateTaskTag [milk1, milk2] "zzz".toList "x".toList).2
      = Feedback.noMatchingTasks "zzz".toList := by
  have h := C5_search_commands_amended [milk1, milk2] ("zzz".toList)
  exact ⟨(h.2.1 (by decide)).1, (h.2.1 (by decide)).2,
    (h.2.2.2.1 (by decide)).1, ((h.2.2.2.2.2.2.2 (by decide)) "x".toList).2⟩

/-- A concrete pending, not-done task. -/
def pend0 : Task := { blankTask with id := "p".toList, text := "task".toList }

/-- C6, counterexample: toggling a pending task sets `done := true` but
leaves `status = pending`, so after this mutation `done = true` holds while
`status ≠ completed` — the claimed equivalence is not maintained. -/
theorem C6_toggle_breaks_done_status_sync :
    toggleTask [pend0] pend0.id = [{ pend0 with done := true }] ∧
    ({ pend0 with done := true }).done = true ∧
    ({ pend0 with done := true }).status ≠ Status.completed := by
  refine ⟨by decide, by decide, by decide⟩

/-- The tick scan never changes any task's `status` field. -/
theorem tickGo_status (ls : Str) (all : Bool) :
    ∀ (l : List Task) (c i : Nat),
      ((tickGo ls all c l).1[i]?).map Task.status = (l[i]?).map Task.status := by
  intro l
  induction l with
  | nil => intro c i; rfl
  | cons t rest ih =>
    intro c i
    by_cases h : (matchesSearch ls t && !t.done) = true
    · simp only [tickGo, h, if_true]
      split <;> cases i <;> simp [ih]
    · simp only [tickGo, h]
      cases i <;> simp [ih]

/-- The mutated list of `tickTasksByText` is the tick scan's list in both
feedback branches. -/
theorem tickTasksByText_fst (tasks : List Task) (s : Str) (all : Bool) :
    (tickTasksByText tasks s all).1 = (tickGo (lowerStr s) all 0 tasks).1 := by
  simp only [tickTasksByText]
  split <;> rfl

/-- C6, amended: the mutation layer updates `done` and `status`
independently rather than keeping `done = true ⇔ status = completed`:
`toggleTask` flips only `done` of the targeted task and preserves every
`status`; `tickTasksByText` sets `done` and preserves every `status`; the
batch-archive handler preserves `done` and sets `status := archived`
(not `completed`) exactly on the already-done tasks. -/
theorem C6_done_status_amended :
    ∀ (tasks : List Task),
      (∀ (id : Str) (i : Nat), ((toggleTask tasks id)[i]?).map Task.status
        = (tasks[i]?).map Task.status) ∧
      (∀ (id : Str) (i : Nat), ((toggleTask tasks id)[i]?).map Task.done
        = (tasks[i]?).map (fun t => if t.id = id then !t.done else t.done)) ∧
      (∀ (s : Str) (all : Bool) (i : Nat),
        (((tickTasksByText tasks s all).1)[i]?).map Task.status
          = (tasks[i]?).map Task.status) ∧
      (∀ i : Nat, (((batchArchive tasks).1)[i]?).map Task.done
        = (tasks[i]?).map Task.done) ∧
      (∀ i : Nat, (((batchArchive tasks).1)[i]?).map Task.status
        = (tasks[i]?).map (fun t => if t.done then Status.archived else t.status)) := by
  intro tasks
  refine ⟨?_, ?_, ?_, ?_, ?_⟩
  · intro id i
    simp only [toggleTask, List.getElem?_map, Option.map_map]
    cases tasks[i]? with
    | none => rfl
    | some t =>
      by_cases h : t.id = id <;> simp [h, Function.comp]
  · intro id i
    simp only [toggleTask, List.getElem?_map, Option.map_map]
    cases tasks[i]? with
    | none => rfl
    | some t =>
      by_cases h : t.id = id <;> simp [h, Function.comp]
  · intro s all i
    rw [tickTasksByText_fst]
    exact tickGo_status (lowerStr s) all tasks 0 i
  · intro i
    simp only [batchArchive]
    split
    · simp only [List.getElem?_map, Option.map_map]
      cases tasks[i]? with
      | none => rfl
      | some t =>
        by_cases h : t.done = true <;> simp [h, Function.comp]
    · rfl
  · intro i
    simp only [batchArchive]
    split
    · simp only [List.getElem?_map, Option.map_map]
      cases tasks[i]? with
      | none => rfl
      | some t =>
        by_cases h : t.done = true <;> simp [h, Function.comp]
    · rename_i hlen
      have hnone : ∀ t ∈ tasks, t.done = false := by
        intro t ht
        have hempty : tasks.filter (fun t => t.done) = [] := by
          rcases List.eq_nil_or_concat (tasks.filter (fun t => t.done)) with h0 | ⟨l', a, hconcat⟩
          · exact h0
          · rw [hconcat] at hlen
            exact absurd (by simp) hlen
        by_cases hd : t.done = true
        · have hmem : t ∈ tasks.filter (fun t => t.done) := by
            simp [List.mem_filter, ht, hd]
          rw [hempty] at hmem
          cases hmem
        · simpa using hd
      cases hi : tasks[i]? with
      | none => rfl
      | some t =>
        have ht : t ∈ tasks := List.getElem?_mem hi
        simp [hnone t ht]


/-! ## Recurrence engine (page.tsx lines 332-451) -/

/-- The weekly weekday snap of page.tsx lines 357-372: sort the configured
weekdays, take the first one strictly greater than the current weekday
(`findIndex(day => day > currentDayOfWeek)`), else wrap to the smallest
weekday in the following week (`7 - currentDayOfWeek + availableDays[0]`);
returns the number of days to add. -/
def weeklyDaysToAdd (cur : Int) (days : List Int) : Int :=
  let availableDays := List.insertionSort (fun a b : Int => a ≤ b) days
  match availableDays.find? (fun day => decide (day > cur)) with
  | some g => g - cur
  | none => 7 - cur + availableDays.headD 0

/-- `nextDate` computation of the recurring-task regeneration effect
(page.tsx lines 342-385), including the end-date cut-off (line 381, with
JavaScript truthiness on `endDate`).  `due` is the civil decomposition of
`new Date(task.dueDate)` and `tod` its milliseconds-of-day. -/
def nextDateRaw (due : CDate) (rule : Recurring) : Option CDate :=
  match rule.type with
  | RecType.daily => some (setDate due (due.day + rule.interval))
  | RecType.weekly =>
    let base := setDate due (due.day + 7 * rule.interval)
    match rule.daysOfWeek with
    | none => some base
    | some days =>
      if days.length > 0 then
        some (setDate base (base.day + weeklyDaysToAdd (getDay base) days))
      else some base
  | RecType.monthly => some (setMonth due (due.month + rule.interval))
  | RecType.custom => none

/-- The end-date cut-off (page.tsx line 381, with JavaScript truthiness on
`endDate`) applied to the computed `nextDate`. -/
def nextDueDate (due : CDate) (tod : Int) (rule : Recurring) : Option CDate :=
  match nextDateRaw due rule with
  | none => none
  | some nd =>
    match rule.endDate with
    | some e =>
      if e = 0 then some nd
      else if toMs nd tod > e then none else some nd
    | none => some nd

/-- The weekday snap lands on the first strictly-later day number whose
weekday belongs to the configured set. -/
theorem weeklyDaysToAdd_least (b7 : Int) (days : List Int) (hne : days ≠ [])
    (hrange : ∀ d ∈ days, 0 ≤ d ∧ d < 7) :
    1 ≤ weeklyDaysToAdd (weekdayOf b7) days ∧
    weekdayOf (b7 + weeklyDaysToAdd (weekdayOf b7) days) ∈ days ∧
    ∀ z : Int, b7 < z → z < b7 + weeklyDaysToAdd (weekdayOf b7) days →
      weekdayOf z ∉ days := by
  have hperm : List.Perm (List.insertionSort (fun a b : Int => a ≤ b) days) days := by
    apply List.perm_insertionSort
  have hsorted : List.Pairwise (fun a b : Int => a ≤ b)
      (List.insertionSort (fun a b : Int => a ≤ b) days) := by
    apply List.sorted_insertionSort
  have hwb7 : (b7 + 4) % 7 = weekdayOf b7 := rfl
  simp only [weeklyDaysToAdd]
  cases hfind : (List.insertionSort (fun a b : Int => a ≤ b) days).find?
      (fun day => decide (day > weekdayOf b7)) with
  | some g =>
    simp only [hfind]
    have hg : g > weekdayOf b7 := by
      have := List.find?_some hfind
      simpa using this
    have hgmem : g ∈ days := hperm.mem_iff.mp (List.mem_of_find?_eq_some hfind)
    have hgr := hrange g hgmem
    obtain ⟨-, as, bs, hs, has⟩ := List.find?_eq_some.mp hfind
    have hall : ∀ x ∈ days, x ≤ weekdayOf b7 ∨ g ≤ x := by
      intro x hx
      have hx' : x ∈ as ++ g :: bs := hs ▸ hperm.mem_iff.mpr hx
      rcases List.mem_append.mp hx' with hxa | hxg
      · left
        have := has x hxa
        simp only [Bool.not_eq_true', decide_eq_false_iff_not, not_lt] at this
        exact this
      · rcases List.mem_cons.mp hxg with rfl | hxb
        · right
          omega
        · right
          have hpw : (as ++ g :: bs).Pairwise (fun a b : Int => a ≤ b) :=
            hs ▸ hsorted
          exact (List.pairwise_cons.mp (List.pairwise_append.mp hpw).2.1).1 x hxb
    refine ⟨by omega, ?_, ?_⟩
    · have hwd : weekdayOf (b7 + (g - weekdayOf b7)) = g := by
        unfold weekdayOf at hwb7 ⊢
        omega
      rw [hwd]
      exact hgmem
    · intro z hz1 hz2 hmem
      have h1 := hall (weekdayOf z) hmem
      have h2 := hrange (weekdayOf z) hmem
      unfold weekdayOf at h1 h2 hwb7 hz2
      omega
  | none =>
    simp only [hfind]
    have hnone := List.find?_eq_none.mp hfind
    have hall : ∀ x ∈ days, x ≤ weekdayOf b7 := by
      intro x hx
      have := hnone x (hperm.mem_iff.mpr hx)
      simpa using this
    have hslen : (List.insertionSort (fun a b : Int => a ≤ b) days).length = days.length :=
      hperm.length_eq
    cases hS : List.insertionSort (fun a b : Int => a ≤ b) days with
    | nil =>
      exfalso
      rw [hS] at hslen
      exact hne (List.length_eq_zero.mp hslen.symm)
    | cons hd tl =>
      simp only [hS, List.headD_cons]
      have hhmem : hd ∈ days := hperm.mem_iff.mp (by rw [hS]; exact List.mem_cons_self hd tl)
      have hh7 := hrange hd hhmem
      have hmin : ∀ x ∈ days, hd ≤ x := by
        intro x hx
        have hx' : x ∈ hd :: tl := hS ▸ hperm.mem_iff.mpr hx
        rcases List.mem_cons.mp hx' with rfl | hxt
        · omega
        · have hpw : (hd :: tl).Pairwise (fun a b : Int => a ≤ b) := hS ▸ hsorted
          exact (List.pairwise_cons.mp hpw).1 x hxt
      have hcur7 : weekdayOf b7 < 7 ∧ 0 ≤ weekdayOf b7 := by unfold weekdayOf; omega
      refine ⟨by omega, ?_, ?_⟩
      · have hwd : weekdayOf (b7 + (7 - weekdayOf b7 + hd)) = hd := by
          unfold weekdayOf at hwb7 ⊢
          omega
        rw [hwd]
        exact hhmem
      · intro z hz1 hz2 hmem
        have h1 := hall (weekdayOf z) hmem
        have h2 := hmin (weekdayOf z) hmem
        have h3 := hrange (weekdayOf z) hmem
        unfold weekdayOf at h1 h2 h3 hwb7 hz2
        omega
/-- The claim's reading of the weekly snap: smallest weekday GREATER OR
EQUAL to the current weekday if one exists this week, else the smallest
weekday in the set next week.  (Written from the specification text, to be
compared with the source's `weeklyDaysToAdd`.) -/
def claimWeeklySnapGE (cur : Int) (days : List Int) : Int :=
  let availableDays := List.insertionSort (fun a b : Int => a ≤ b) days
  match availableDays.find? (fun day => decide (day ≥ cur)) with
  | some g => g - cur
  | none => 7 - cur + availableDays.headD 0

/-- C3, counterexample: a weekly task due Wednesday 2024-01-03 with
`daysOfWeek = [3]` (Wednesday).  After the `7 × interval` advance the
weekday is again 3; the claimed "smallest weekday ≥ current" rule would add
0 days (next due 2024-01-10, exactly one week later), but the code's
strictly-greater test skips the same weekday and lands on 2024-01-17, two
weeks later. -/
theorem C3_weekly_snap_skips_equal_weekday :
    nextDueDate ⟨2024, 0, 3⟩ 0
        { type := RecType.weekly, interval := 1, daysOfWeek := some [3], endDate := none }
      = some ⟨2024, 0, 17⟩ ∧
    getDay ⟨2024, 0, 10⟩ = 3 ∧
    weeklyDaysToAdd 3 [3] = 7 ∧
    claimWeeklySnapGE 3 [3] = 0 ∧
    toDays ⟨2024, 0, 17⟩ = toDays ⟨2024, 0, 3⟩ + 14 := by
  refine ⟨by decide, by decide, by decide, by decide, by decide⟩

/-- C3, amended: for a canonical due date and interval ≥ 1 — daily advances
the due day number by `interval`; weekly with no weekday set advances it by
`7 × interval`; weekly with a non-empty weekday set advances by
`7 × interval` and then snaps forward to the FIRST STRICTLY LATER date
whose weekday is in the set (so the smallest configured weekday strictly
greater than the current weekday this week, else the smallest configured
weekday next week — never the same day even when its weekday is in the
set); monthly applies JavaScript `setMonth` calendar-month addition, which
is calendar-aware and not a fixed 30 days (January and April steps differ:
31 vs 30 days); and a non-zero `endDate` turns the result into `none`
exactly when the computed next due moment exceeds it. -/
theorem C3_next_due_amended :
    (∀ (due : CDate) (tod : Int), Valid due → ∀ i : Int, 1 ≤ i →
      (∃ nd, nextDueDate due tod
          { type := RecType.daily, interval := i, daysOfWeek := none, endDate := none }
            = some nd ∧
        toDays nd = toDays due + i) ∧
      (∃ nd, nextDueDate due tod
          { type := RecType.weekly, interval := i, daysOfWeek := none, endDate := none }
            = some nd ∧
        toDays nd = toDays due + 7 * i) ∧
      (∀ days : List Int, days ≠ [] → (∀ d ∈ days, 0 ≤ d ∧ d < 7) →
        ∃ nd, nextDueDate due tod
            { type := RecType.weekly, interval := i, daysOfWeek := some days,
              endDate := none }
              = some nd ∧
          toDays due + 7 * i < toDays nd ∧
          weekdayOf (toDays nd) ∈ days ∧
          ∀ z : Int, toDays due + 7 * i < z → z < toDays nd → weekdayOf z ∉ days) ∧
      nextDueDate due tod
          { type := RecType.monthly, interval := i, daysOfWeek := none, endDate := none }
        = some (setMonth due (due.month + i))) ∧
    (∀ (due : CDate) (tod : Int) (rule : Recurring) (e : Int),
      rule.endDate = some e → e ≠ 0 →
      nextDueDate due tod rule
        = (nextDueDate due tod { rule with endDate := none }).bind
            (fun nd => if toMs nd tod > e then none else some nd)) ∧
    (nextDueDate ⟨2024, 0, 15⟩ 0
        { type := RecType.monthly, interval := 1, daysOfWeek := none, endDate := none }
      = some ⟨2024, 1, 15⟩ ∧
      toDays ⟨2024, 1, 15⟩ = toDays ⟨2024, 0, 15⟩ + 31 ∧
      nextDueDate ⟨2024, 3, 15⟩ 0
        { type := RecType.monthly, interval := 1, daysOfWeek := none, endDate := none }
      = some ⟨2024, 4, 15⟩ ∧
      toDays ⟨2024, 4, 15⟩ = toDays ⟨2024, 3, 15⟩ + 30) := by
  refine ⟨?_, ?_, by decide, by decide, by decide, by decide⟩
  · intro due tod hv i hi
    refine ⟨?_, ?_, ?_, rfl⟩
    · exact ⟨setDate due (due.day + i), rfl, (setDate_adds due hv i (by omega)).1⟩
    · exact ⟨setDate due (due.day + 7 * i), rfl, (setDate_adds due hv (7 * i) (by omega)).1⟩
    · intro days hne hrange
      have hb := setDate_adds due hv (7 * i) (by omega)
      have hlen : 0 < days.length := List.length_pos.mpr hne
      have hgd : getDay (setDate due (due.day + 7 * i))
          = weekdayOf (toDays (setDate due (due.day + 7 * i))) := rfl
      have hleast := weeklyDaysToAdd_least (toDays (setDate due (due.day + 7 * i)))
        days hne hrange
      have hadds := setDate_adds (setDate due (due.day + 7 * i)) hb.2
        (weeklyDaysToAdd (weekdayOf (toDays (setDate due (due.day + 7 * i)))) days)
        (by omega)
      rw [← hgd] at hleast hadds
      refine ⟨setDate (setDate due (due.day + 7 * i))
        ((setDate due (due.day + 7 * i)).day +
          weeklyDaysToAdd (getDay (setDate due (due.day + 7 * i))) days), ?_, ?_, ?_, ?_⟩
      · simp [nextDueDate, nextDateRaw, hlen]
      · rw [hadds.1]
        have h1 := hb.1
        have h2 := hleast.1
        omega
      · rw [hadds.1]
        exact hleast.2.1
      · intro z hz1 hz2
        rw [hadds.1] at hz2
        have h1 := hb.1
        exact hleast.2.2 z (by omega) (by omega)
  · intro due tod rule e hend he
    obtain ⟨ty, iv, dw, ed⟩ := rule
    simp only at hend
    subst hend
    have hraw : nextDateRaw due
        { type := ty, interval := iv, daysOfWeek := dw, endDate := none }
      = nextDateRaw due
        { type := ty, interval := iv, daysOfWeek := dw, endDate := some e } := rfl
    simp only [nextDueDate, ← hraw]
    cases nextDateRaw due
        { type := ty, interval := iv, daysOfWeek := dw, endDate := none } with
    | none => rfl
    | some nd => simp [he]

/-- Witness for the amended C3 statement at the concrete canonical due date
2024-01-03 (a Wednesday), interval 2, weekday set `[1, 3]`. -/
theorem C3_next_due_amended_witness :
    (∃ nd, nextDueDate ⟨2024, 0, 3⟩ 0
        { type := RecType.daily, interval := 2, daysOfWeek := none, endDate := none }
          = some nd ∧
      toDays nd = toDays ⟨2024, 0, 3⟩ + 2) ∧
    (∃ nd, nextDueDate ⟨2024, 0, 3⟩ 0
        { type := RecType.weekly, interval := 2, daysOfWeek := some [1, 3],
          endDate := none }
          = some nd ∧
      toDays ⟨2024, 0, 3⟩ + 7 * 2 < toDays nd ∧
      weekdayOf (toDays nd) ∈ [1, 3] ∧
      ∀ z : Int, toDays ⟨2024, 0, 3⟩ + 7 * 2 < z → z < toDays nd →
        weekdayOf z ∉ [1, 3]) := by
  have h := (C3_next_due_amended.1 ⟨2024, 0, 3⟩ 0 (by decide) 2 (by decide))
  exact ⟨h.1, h.2.2.1 [1, 3] (by decide) (by decide)⟩


/-! ## Recurring-task regeneration (page.tsx lines 332-451) -/

/-- Index-aware map used to model successive `uuidv4()` calls inside
`Array.prototype.map`: element `j` of the list is transformed with index
`n + j`. -/
def mapIdxGo {α β : Type _} (f : Nat → α → β) : Nat → List α → List β
  | _, [] => []
  | n, a :: as => f n a :: mapIdxGo f (n + 1) as

/-- Regeneration of a single reminder (page.tsx lines 394-423): a fresh id,
`notified` reset to false, and the time recomputed — a relative reminder
keeps its offset from the due date
(`nextDate.getTime() - (task.dueDate - reminder.time)`), an absolute
reminder keeps its wall-clock time. -/
def regenReminder (newId : Str) (dms ndms : Int) (r : Reminder) : Reminder :=
  match r.type with
  | RemType.relative =>
    { id := newId, time := ndms - (dms - r.time), notified := false,
      type := RemType.relative }
  | RemType.absolute =>
    { id := newId, time := r.time, notified := false,
      type := RemType.absolute }

/-- The new task instance pushed by the regeneration effect (page.tsx lines
387-441): spread of the original with a fresh id, `done := false`,
`status := 'pending'`, `createdAt := now`, the computed next due date,
reminders recreated only when the original list is non-empty
(`task.reminders && task.reminders.length > 0`), and subtasks
re-instantiated with fresh ids and `done := false` whenever present.
`fr` supplies the successive `uuidv4()` results of this loop iteration:
`fr 0` is the new task id, `fr (1 + j)` the id of recreated reminder `j`,
and the fresh subtask ids follow after the reminder ids. -/
def regenTask (now : Int) (fr : Nat → Str) (task : Task) (dms : Int)
    (nd : CDate) (tod : Int) : Task :=
  let ndms := toMs nd tod
  let remCount := (task.reminders.getD []).length
  { task with
    id := fr 0,
    done := false,
    status := Status.pending,
    createdAt := now,
    dueDate := some (nd, tod),
    reminders :=
      match task.reminders with
      | some rs =>
        if 0 < rs.length then
          some (mapIdxGo (fun j r => regenReminder (fr j) dms ndms r) 1 rs)
        else none
      | none => none,
    subtasks :=
      match task.subtasks with
      | some sts =>
        some (mapIdxGo (fun j st => Subtask.mk (fr j) st.text false)
          (1 + remCount) sts)
      | none => none }

/-- One iteration of the regeneration `forEach` (page.tsx lines 339-445): a
completed recurring task with a truthy due date whose computed `nextDate`
survives the end-date cut contributes one new task instance; anything else
contributes nothing. -/
def regenOne (now : Int) (fr : Nat → Str) (task : Task) : Option Task :=
  match task.recurring with
  | none => none
  | some rule =>
    if task.done then
      match task.dueDate with
      | none => none
      | some (due, tod) =>
        if toMs due tod = 0 then none
        else
          match nextDueDate due tod rule with
          | none => none
          | some nd => some (regenTask now fr task (toMs due tod) nd tod)
    else none

/-- The `forEach` push loop over the original snapshot: the `i`-th original
task draws its fresh ids from `fresh i`. -/
def regenGo (now : Int) (fresh : Nat → Nat → Str) :
    Nat → List Task → List Task
  | _, [] => []
  | i, t :: ts =>
    match regenOne now (fresh i) t with
    | none => regenGo now fresh (i + 1) ts
    | some nt => nt :: regenGo now fresh (i + 1) ts

/-- The whole regeneration effect (page.tsx lines 332-451):
`updatedTasks = [...tasks]` followed by one conditional `push` per original
task, in order. -/
def regenerate (now : Int) (fresh : Nat → Nat → Str) (tasks : List Task) :
    List Task :=
  tasks ++ regenGo now fresh 0 tasks

/-- Index-aware map preserves length. -/
lemma mapIdxGo_length {α β : Type _} (f : Nat → α → β) :
    ∀ (n : Nat) (l : List α), (mapIdxGo f n l).length = l.length := by
  intro n l
  induction l generalizing n with
  | nil => rfl
  | cons a as ih => simp [mapIdxGo, ih]

/-- Element `j` of an index-aware map from start index `n` is the image of
element `j` under `f (n + j)`. -/
lemma mapIdxGo_getElem? {α β : Type _} (f : Nat → α → β) :
    ∀ (n : Nat) (l : List α) (j : Nat),
      (mapIdxGo f n l)[j]? = Option.map (fun a => f (n + j) a) (l[j]?) := by
  intro n l
  induction l generalizing n with
  | nil => intro j; simp [mapIdxGo]
  | cons a as ih =>
    intro j
    cases j with
    | zero => simp [mapIdxGo]
    | succ k =>
      have h := ih (n + 1) k
      simp only [mapIdxGo, List.getElem?_cons_succ]
      rw [h]
      have he : n + 1 + k = n + (k + 1) := by omega
      rw [he]

/-- Appending on the right does not disturb the elements of the left list. -/
lemma getElem?_append_lt {α : Type _} :
    ∀ (l1 l2 : List α) (i : Nat), i < l1.length → (l1 ++ l2)[i]? = l1[i]? := by
  intro l1
  induction l1 with
  | nil => intro l2 i h; simp at h
  | cons a as ih =>
    intro l2 i h
    cases i with
    | zero => simp
    | succ j =>
      simp only [List.cons_append, List.getElem?_cons_succ]
      exact ih l2 j (by simpa using h)

/-- A task of the snapshot whose iteration produces a new instance puts that
instance into the pushed suffix. -/
lemma regenGo_mem (now : Int) (fresh : Nat → Nat → Str) :
    ∀ (tasks : List Task) (k i : Nat) (t nt : Task),
      tasks[i]? = some t → regenOne now (fresh (k + i)) t = some nt →
      nt ∈ regenGo now fresh k tasks := by
  intro tasks
  induction tasks with
  | nil => intro k i t nt h1 _; simp at h1
  | cons a as ih =>
    intro k i t nt h1 h2
    cases i with
    | zero =>
      simp only [List.getElem?_cons_zero, Option.some_inj] at h1
      subst h1
      rw [Nat.add_zero] at h2
      simp only [regenGo, h2]
      exact List.mem_cons_self _ _
    | succ j =>
      simp only [List.getElem?_cons_succ] at h1
      have h2x : regenOne now (fresh (k + 1 + j)) t = some nt := by
        have he : k + 1 + j = k + (j + 1) := by omega
        rw [he]; exact h2
      have hmem := ih (k + 1) j t nt h1 h2x
      simp only [regenGo]
      cases hro : regenOne now (fresh k) a with
      | none => exact hmem
      | some nt0 => exact List.mem_cons_of_mem _ hmem

/-- C4: the regeneration effect never mutates the originals — every original
task, with all its fields, is still at its index in the store — and a
completed recurring task whose truthy due date admits a next occurrence
contributes exactly one new appended instance with a fresh id,
`done = false`, `status = 'pending'`, `createdAt` the regeneration time, the
computed next due date, all other scalar fields inherited, reminders
recreated with fresh ids and `notified = false` (relative ones keeping the
original offset from the due date, absolute ones the same wall-clock time),
and subtasks re-instantiated with fresh ids and `done = false`. -/
theorem C4_regen_appends_fresh_instance (now : Int) (fresh : Nat → Nat → Str)
    (tasks : List Task) (fr : Nat → Str) (task : Task) (rule : Recurring)
    (due : CDate) (tod : Int) (nd : CDate)
    (h1 : task.recurring = some rule) (h2 : task.done = true)
    (h3 : task.dueDate = some (due, tod)) (h4 : toMs due tod ≠ 0)
    (h5 : nextDueDate due tod rule = some nd) :
    (∀ i, i < tasks.length → (regenerate now fresh tasks)[i]? = tasks[i]?) ∧
    (∀ i, tasks[i]? = some task →
      ∃ nt, regenOne now (fresh i) task = some nt ∧
        nt ∈ regenerate now fresh tasks) ∧
    (∃ nt, regenOne now fr task = some nt ∧
      nt.id = fr 0 ∧
      nt.done = false ∧
      nt.status = Status.pending ∧
      nt.createdAt = now ∧
      nt.dueDate = some (nd, tod) ∧
      nt.text = task.text ∧ nt.tag = task.tag ∧ nt.tags = task.tags ∧
      nt.priority = task.priority ∧ nt.notes = task.notes ∧
      nt.recurring = task.recurring ∧
      ((∀ t ∈ tasks, t.id ≠ fr 0) → ∀ t ∈ tasks, nt.id ≠ t.id) ∧
      (∀ rs, task.reminders = some rs → 0 < rs.length →
        ∃ rs2, nt.reminders = some rs2 ∧ rs2.length = rs.length ∧
          ∀ j r, rs[j]? = some r →
            ∃ r2, rs2[j]? = some r2 ∧ r2.id = fr (1 + j) ∧
              r2.notified = false ∧ r2.type = r.type ∧
              (r.type = RemType.relative →
                r2.time = toMs nd tod - (toMs due tod - r.time)) ∧
              (r.type = RemType.absolute → r2.time = r.time)) ∧
      (∀ sts, task.subtasks = some sts →
        ∃ sts2, nt.subtasks = some sts2 ∧ sts2.length = sts.length ∧
          ∀ j st, sts[j]? = some st →
            sts2[j]? = some
              (Subtask.mk (fr (1 + (task.reminders.getD []).length + j))
                st.text false))) := by
  have hro : ∀ g : Nat → Str,
      regenOne now g task = some (regenTask now g task (toMs due tod) nd tod) := by
    intro g
    simp [regenOne, h1, h2, h3, h4, h5]
  refine ⟨?_, ?_, ?_⟩
  · intro i hi
    exact getElem?_append_lt tasks _ i hi
  · intro i hti
    refine ⟨regenTask now (fresh i) task (toMs due tod) nd tod, hro (fresh i), ?_⟩
    apply List.mem_append_right
    apply regenGo_mem now fresh tasks 0 i task _ hti
    rw [Nat.zero_add]
    exact hro (fresh i)
  · refine ⟨regenTask now fr task (toMs due tod) nd tod, hro fr,
      rfl, rfl, rfl, rfl, rfl, rfl, rfl, rfl, rfl, rfl, rfl, ?_, ?_, ?_⟩
    · intro hfr t ht heq
      exact hfr t ht heq.symm
    · intro rs hrs hlen
      refine ⟨mapIdxGo
          (fun j r => regenReminder (fr j) (toMs due tod) (toMs nd tod) r) 1 rs,
        ?_, mapIdxGo_length _ 1 rs, ?_⟩
      · simp [regenTask, hrs, hlen]
      · intro j r hjr
        have h := mapIdxGo_getElem?
          (fun j r => regenReminder (fr j) (toMs due tod) (toMs nd tod) r) 1 rs j
        rw [hjr] at h
        refine ⟨regenReminder (fr (1 + j)) (toMs due tod) (toMs nd tod) r,
          by rw [h]; rfl, ?_, ?_, ?_, ?_, ?_⟩
        · cases hrt : r.type <;> simp [regenReminder, hrt]
        · cases hrt : r.type <;> simp [regenReminder, hrt]
        · cases hrt : r.type <;> simp [regenReminder, hrt]
        · intro hrt; simp [regenReminder, hrt]
        · intro hrt; simp [regenReminder, hrt]
    · intro sts hsts
      refine ⟨mapIdxGo (fun j st => Subtask.mk (fr j) st.text false)
          (1 + (task.reminders.getD []).length) sts,
        ?_, mapIdxGo_length _ _ sts, ?_⟩
      · simp [regenTask, hsts]
      · intro j st hjst
        have h := mapIdxGo_getElem? (fun j st => Subtask.mk (fr j) st.text false)
          (1 + (task.reminders.getD []).length) sts j
        rw [hjst] at h
        rw [h]
        rfl

/-- Concrete recurrence rule for exercising the regeneration theorem. -/
def c4rule : Recurring :=
  { type := RecType.daily, interval := 1, daysOfWeek := none, endDate := none }

/-- Concrete completed daily-recurring task due 2024-01-03. -/
def c4task : Task :=
  { blankTask with
      recurring := some c4rule,
      done := true,
      dueDate := some (⟨2024, 0, 3⟩, 0) }

/-- Constant fresh-id supply for one loop iteration. -/
def c4fr : Nat → Str := fun _ => [Char.ofNat 120]

/-- Constant fresh-id supply for the whole effect. -/
def c4fresh : Nat → Nat → Str := fun _ _ => [Char.ofNat 120]

/-- Witness: the regeneration frame-and-append theorem applies to the
concrete completed daily task due 2024-01-03 with next occurrence
2024-01-04. -/
theorem C4_regen_appends_fresh_instance_witness :
    (c4task.recurring = some c4rule ∧ c4task.done = true ∧
     c4task.dueDate = some (⟨2024, 0, 3⟩, 0) ∧ toMs ⟨2024, 0, 3⟩ 0 ≠ 0 ∧
     nextDueDate ⟨2024, 0, 3⟩ 0 c4rule = some ⟨2024, 0, 4⟩) ∧
    ((∀ i, i < [c4task].length →
        (regenerate 5 c4fresh [c4task])[i]? = [c4task][i]?) ∧
     (∀ i, [c4task][i]? = some c4task →
        ∃ nt, regenOne 5 (c4fresh i) c4task = some nt ∧
          nt ∈ regenerate 5 c4fresh [c4task]) ∧
     (∃ nt, regenOne 5 c4fr c4task = some nt ∧
       nt.id = c4fr 0 ∧
       nt.done = false ∧
       nt.status = Status.pending ∧
       nt.createdAt = 5 ∧
       nt.dueDate = some (⟨2024, 0, 4⟩, 0) ∧
       nt.text = c4task.text ∧ nt.tag = c4task.tag ∧ nt.tags = c4task.tags ∧
       nt.priority = c4task.priority ∧ nt.notes = c4task.notes ∧
       nt.recurring = c4task.recurring ∧
       ((∀ t ∈ [c4task], t.id ≠ c4fr 0) → ∀ t ∈ [c4task], nt.id ≠ t.id) ∧
       (∀ rs, c4task.reminders = some rs → 0 < rs.length →
         ∃ rs2, nt.reminders = some rs2 ∧ rs2.length = rs.length ∧
           ∀ j r, rs[j]? = some r →
             ∃ r2, rs2[j]? = some r2 ∧ r2.id = c4fr (1 + j) ∧
               r2.notified = false ∧ r2.type = r.type ∧
               (r.type = RemType.relative →
                 r2.time = toMs ⟨2024, 0, 4⟩ 0 - (toMs ⟨2024, 0, 3⟩ 0 - r.time)) ∧
               (r.type = RemType.absolute → r2.time = r.time)) ∧
       (∀ sts, c4task.subtasks = some sts →
         ∃ sts2, nt.subtasks = some sts2 ∧ sts2.length = sts.length ∧
           ∀ j st, sts[j]? = some st →
             sts2[j]? = some
               (Subtask.mk (c4fr (1 + (c4task.reminders.getD []).length + j))
                 st.text false)))) :=
  ⟨⟨by decide, by decide, by decide, by decide, by decide⟩,
   C4_regen_appends_fresh_instance 5 c4fresh [c4task] c4fr c4task c4rule
     ⟨2024, 0, 3⟩ 0 ⟨2024, 0, 4⟩ (by decide) (by decide) (by decide)
     (by decide) (by decide)⟩


/-! ## Rule-based command parser (src/app/utils/helpers.ts lines 104-583)

The command text is processed after `input.trim().toLowerCase()`.  We model
the trimmed, lowercased text both as a character list (for `parseCommand`
itself) and, inside `parseCommandRuleBased`, by its list of
whitespace-separated words (`splitWS`), on which every rule's prefix test
and regular expression is translated.  On such canonically spaced text the
translations below are exact: each rule quotes its source regex, `\s+`
separators are word boundaries, a lazy `(.*?)` group takes the fewest words
such that the rest of the pattern still matches (and, the text having no
doubled or trailing spaces, a lazy group guarded by `\s+` on both sides is
never empty), and inner `toLowerCase()` calls are kept as `lowerStr`. -/

/-- JavaScript whitespace test for the characters that can occur here. -/
def isWSChar (c : Char) : Bool :=
  decide (c = ' ' ∨ c = Char.ofNat 9 ∨ c = Char.ofNat 10 ∨ c = Char.ofNat 13)

/-- `String.prototype.trim`. -/
def trimStr (s : Str) : Str :=
  ((s.dropWhile isWSChar).reverse.dropWhile isWSChar).reverse

/-- Split into whitespace-separated words (the token view of the text). -/
def splitWS (s : Str) : List Str :=
  let p := s.foldr
    (fun c acc =>
      if isWSChar c then
        (if acc.2 = ([] : Str) then acc.1 else acc.2 :: acc.1, ([] : Str))
      else (acc.1, c :: acc.2))
    (([] : List Str), ([] : Str))
  if p.2 = [] then p.1 else p.2 :: p.1

/-- Rejoin words with single spaces (inverse of `splitWS` on canonical
text); used for captures that span several words. -/
def joinSp : List Str → Str
  | [] => []
  | [t] => t
  | t :: ts => t ++ ' ' :: joinSp ts

/-- Regex `\d`. -/
def isDigitChar (c : Char) : Bool := decide ('0' ≤ c ∧ c ≤ '9')

/-- Regex `\w`. -/
def isWordChar (c : Char) : Bool :=
  decide (('a' ≤ c ∧ c ≤ 'z') ∨ ('A' ≤ c ∧ c ≤ 'Z') ∨ ('0' ≤ c ∧ c ≤ '9') ∨
    c = '_')

/-- A non-empty all-`\w` word (a full `(\w+)` capture). -/
def allWord (s : Str) : Bool := !s.isEmpty && s.all isWordChar

/-- A non-empty all-digit word (a full `(\d+)` capture). -/
def allDigits (s : Str) : Bool := !s.isEmpty && s.all isDigitChar

/-- `parseInt` on an all-digit capture. -/
def natOfDigits (s : Str) : Nat :=
  s.foldl (fun n c => n * 10 + (c.toNat - 48)) 0

/-- Decimal rendering used by template literals. -/
def natToStr (n : Nat) : Str := Nat.toDigits 10 n

/-- Whether `suf` ends the word `tok` (for one-sided substring guards). -/
def endsWithTok (suf tok : Str) : Bool := decide (suf <:+ tok)

/-- The command kinds of `CommandResult.type` (`rep` stands for the source
string `'repeat'`). -/
inductive CmdType
  | help | add | subtask | tick | delete | archive | tag | filter | priority
  | due | snooze | rep | remind | project | sort | calendar | dark | light
  | summarize | unknown
deriving DecidableEq, Repr

/-- The result record of the parser (helpers.ts `CommandResult`); absent
optional fields are `none`. -/
structure CommandResult where
  type : CmdType
  confidence : Int
  taskText : Option Str := none
  searchTerm : Option Str := none
  tag : Option Str := none
  priority : Option Str := none
  allMatches : Option Bool := none
  project : Option Str := none
  subtaskText : Option Str := none
  parentTaskSearch : Option Str := none
  dueSpec : Option Str := none
  dueDate : Option Int := none
  snoozeAmount : Option Nat := none
  snoozeUnit : Option Str := none
  recurringType : Option Str := none
  recurringInterval : Option Int := none
  recurringDays : Option (List Int) := none
  reminderSpec : Option Str := none
  reminderTime : Option Int := none
  reminderRelativeHours : Option Nat := none
  projectName : Option Str := none
  sortCriteria : Option Str := none
deriving DecidableEq, Repr

/-- First `some` in a list of rule attempts (the if-return chain). -/
def firstSome {α : Type _} : List (Option α) → Option α
  | [] => none
  | o :: os =>
    match o with
    | some a => some a
    | none => firstSome os

/-- First occurrence of the word `sep` that has a non-empty right part;
returns the words before and after it. -/
def findSplitPost (sep : Str) : List Str → Option (List Str × List Str)
  | [] => none
  | t :: rest =>
    if t = sep ∧ rest ≠ [] then some ([], rest)
    else (findSplitPost sep rest).map (fun p => (t :: p.1, p.2))

/-- As `findSplitPost`, but the left part must also be non-empty (a lazy
`(.*?)` between two `\s+` cannot be empty on canonical text). -/
def findSplitMid (sep : Str) : List Str → Option (List Str × List Str)
  | [] => none
  | t :: rest => (findSplitPost sep rest).map (fun p => (t :: p.1, p.2))

/-- `text === 'help' || text === 'commands'` (helpers.ts 129-131). -/
def helpRule (ts : List Str) : Option CommandResult :=
  if ts = ["help".toList] ∨ ts = ["commands".toList] then
    some { type := CmdType.help, confidence := 1 }
  else none

/-- The `add subtask` form (helpers.ts 137-147): guards
`includes(' subtask ') && includes(' to ')`, regex
`^add\s+subtask\s+(.*?)\s+to\s+(.*?)$` (the final lazy capture is non-empty
on trimmed text). -/
def addSubtaskForm (ts : List Str) : Option CommandResult :=
  match ts with
  | _ :: t1 :: rest2 =>
    if ((ts.drop 1).dropLast.any (fun t => decide (t = "subtask".toList))) ∧
        ((ts.drop 1).dropLast.any (fun t => decide (t = "to".toList))) ∧
        t1 = "subtask".toList then
      match findSplitMid "to".toList rest2 with
      | some p =>
        some { type := CmdType.subtask, confidence := 1,
               subtaskText := some (joinSp p.1),
               parentTaskSearch := some (joinSp p.2) }
      | none => none
    else none
  | _ => none

/-- The `add ... to ... project` form (helpers.ts 150-160): guards
`includes(' to ') && includes(' project')`, regex
`^add\s+(.*?)\s+to\s+(.*?)\s+project$`. -/
def addProjectForm (ts : List Str) : Option CommandResult :=
  if ((ts.drop 1).dropLast.any (fun t => decide (t = "to".toList))) ∧
      ((ts.drop 1).any (fun t => decide ("project".toList <+: t))) ∧
      ts.getLast? = some "project".toList then
    match findSplitMid "to".toList ((ts.drop 1).dropLast) with
    | some p =>
      some { type := CmdType.add, confidence := 1,
             taskText := some (joinSp p.1),
             project := some (joinSp p.2) }
    | none => none
  else none

/-- The hashtag form of `add` (helpers.ts 165-173), regex
`^(.*?)(?:\s+#(\w+))?$` with a non-`undefined` second capture: the final
word is `#` followed by a `\w+`, and is preceded by at least one word. -/
def addHashtagForm (rest : List Str) : Option CommandResult :=
  match rest.getLast? with
  | some lt =>
    match lt with
    | c :: w =>
      if c = '#' ∧ allWord w ∧ rest.length ≥ 2 then
        some { type := CmdType.add, confidence := 1,
               taskText := some (joinSp rest.dropLast),
               tag := some (lowerStr w) }
      else none
    | [] => none
  | none => none

/-- The `as` form of `add` (helpers.ts 176-184), regex
`^(.*?)\s+as\s+(\w+)$`. -/
def addAsForm (rest : List Str) : Option CommandResult :=
  match rest.getLast? with
  | some w =>
    if allWord w ∧ rest.dropLast.getLast? = some "as".toList ∧
        rest.length ≥ 3 then
      some { type := CmdType.add, confidence := 1,
             taskText := some (joinSp (rest.dropLast.dropLast)),
             tag := some (lowerStr w) }
    else none
  | none => none

/-- The priority form of `add` (helpers.ts 187-196), regex
`^(.*?)\s+!(\w+)$`; the priority is kept only when it is one of
high, medium, low. -/
def addPriorityForm (rest : List Str) : Option CommandResult :=
  match rest.getLast? with
  | some lt =>
    match lt with
    | c :: w =>
      if c = '!' ∧ allWord w ∧ rest.length ≥ 2 then
        some { type := CmdType.add, confidence := 1,
               taskText := some (joinSp rest.dropLast),
               priority :=
                 if lowerStr w = "high".toList ∨ lowerStr w = "medium".toList ∨
                     lowerStr w = "low".toList then
                   some (lowerStr w)
                 else none }
      else none
    | [] => none
  | none => none

/-- The `add` rule (helpers.ts 135-200): always returns a result once the
text starts with `add `. -/
def addRule (ts : List Str) : Option CommandResult :=
  match ts with
  | [] => none
  | t0 :: rest =>
    if t0 = "add".toList ∧ rest ≠ [] then
      some (match addSubtaskForm ts with
        | some r => r
        | none =>
          match addProjectForm ts with
          | some r => r
          | none =>
            match addHashtagForm rest with
            | some r => r
            | none =>
              match addAsForm rest with
              | some r => r
              | none =>
                match addPriorityForm rest with
                | some r => r
                | none =>
                  { type := CmdType.add, confidence := 1,
                    taskText := some (joinSp rest) })
    else none

/-- The subtask form of `tick`/`complete` (helpers.ts 206-215): guard
`includes('subtask ')`, regex `^(?:tick|complete)\s+subtask\s+(.*?)$`. -/
def tickSubtaskForm (ts : List Str) : Option CommandResult :=
  match ts with
  | _ :: t1 :: rest2 =>
    if (ts.dropLast.any (fun t => endsWithTok "subtask".toList t)) ∧
        t1 = "subtask".toList ∧ rest2 ≠ [] then
      some { type := CmdType.subtask, confidence := 1,
             subtaskText := some (joinSp rest2) }
    else none
  | _ => none

/-- The `tick`/`complete` rule (helpers.ts 204-232). -/
def tickRule (ts : List Str) : Option CommandResult :=
  match ts with
  | [] => none
  | t0 :: rest =>
    if (t0 = "tick".toList ∨ t0 = "complete".toList) ∧ rest ≠ [] then
      some (match tickSubtaskForm ts with
        | some r => r
        | none =>
          match rest with
          | t1 :: rest2 =>
            if t1 = "all".toList ∧ rest2 ≠ [] then
              { type := CmdType.tick, confidence := 1,
                searchTerm := some (joinSp rest2), allMatches := some true }
            else
              { type := CmdType.tick, confidence := 1,
                searchTerm := some (joinSp rest) }
          | [] =>
            { type := CmdType.tick, confidence := 1,
              searchTerm := some (joinSp rest) })
    else none

/-- The `delete`/`remove` rule (helpers.ts 236-252). -/
def deleteRule (ts : List Str) : Option CommandResult :=
  match ts with
  | [] => none
  | t0 :: rest =>
    if (t0 = "delete".toList ∨ t0 = "remove".toList) ∧ rest ≠ [] then
      some (match rest with
        | t1 :: rest2 =>
          if t1 = "all".toList ∧ rest2 ≠ [] then
            { type := CmdType.delete, confidence := 1,
              searchTerm := some (joinSp rest2), allMatches := some true }
          else
            { type := CmdType.delete, confidence := 1,
              searchTerm := some (joinSp rest) }
        | [] =>
          { type := CmdType.delete, confidence := 1,
            searchTerm := some (joinSp rest) })
    else none

/-- The `archive` rule (helpers.ts 256-280). -/
def archiveRule (ts : List Str) : Option CommandResult :=
  match ts with
  | [] => none
  | t0 :: rest =>
    if t0 = "archive".toList ∧ rest ≠ [] then
      some (match rest with
        | t1 :: rest2 =>
          if t1 = "all".toList ∧ rest2 ≠ [] then
            { type := CmdType.archive, confidence := 1,
              searchTerm := some (joinSp rest2), allMatches := some true }
          else if t1 = "completed".toList ∧ rest2 = [] then
            { type := CmdType.archive, confidence := 1,
              searchTerm := some "completed".toList, allMatches := some true }
          else
            { type := CmdType.archive, confidence := 1,
              searchTerm := some (joinSp rest) }
        | [] =>
          { type := CmdType.archive, confidence := 1,
            searchTerm := some (joinSp rest) })
    else none

/-- The `tag` rule (helpers.ts 284-294), regex
`^tag\s+(.*?)\s+as\s+(\w+)$`; no result if the regex fails. -/
def tagRule (ts : List Str) : Option CommandResult :=
  match ts with
  | [] => none
  | t0 :: rest =>
    if t0 = "tag".toList ∧ rest ≠ [] then
      match rest.getLast? with
      | some w =>
        if allWord w ∧ rest.dropLast.getLast? = some "as".toList ∧
            rest.length ≥ 3 then
          some { type := CmdType.tag, confidence := 1,
                 searchTerm := some (joinSp (rest.dropLast.dropLast)),
                 tag := some (lowerStr w) }
        else none
      | none => none
    else none

/-- The `(\w+)(?:\s+tasks)?$` tail of the filter regex. -/
def filterCore : List Str → Option Str
  | [x] => if allWord x then some x else none
  | [x, t] => if allWord x ∧ t = "tasks".toList then some x else none
  | _ => none

/-- The `filter`/`show` rule (helpers.ts 298-307), regex
`^(?:filter|show)(?:\s+by)?\s+(\w+)(?:\s+tasks)?$`: the greedy optional
`by` is tried first and backtracked if the tail then fails. -/
def filterRule (ts : List Str) : Option CommandResult :=
  match ts with
  | [] => none
  | t0 :: rest =>
    if (t0 = "filter".toList ∨ t0 = "show".toList) ∧ rest ≠ [] then
      let r := match rest with
        | t1 :: rest2 =>
          if t1 = "by".toList then
            match filterCore rest2 with
            | some x => some x
            | none => filterCore rest
          else filterCore rest
        | [] => none
      match r with
      | some x =>
        some { type := CmdType.filter, confidence := 1,
               tag := some (lowerStr x) }
      | none => none
    else none

/-- The `priority` rule (helpers.ts 312-321), regex
`^priority\s+(.*?)\s+(high|medium|low)$`. -/
def priorityRule (ts : List Str) : Option CommandResult :=
  match ts with
  | [] => none
  | t0 :: rest =>
    if t0 = "priority".toList ∧ rest ≠ [] then
      match rest.getLast? with
      | some p =>
        if (p = "high".toList ∨ p = "medium".toList ∨ p = "low".toList) ∧
            rest.length ≥ 2 then
          some { type := CmdType.priority, confidence := 1,
                 searchTerm := some (joinSp rest.dropLast),
                 priority := some p }
        else none
      | none => none
    else none

/-- `days.indexOf(dayOfWeek)` over
`['sunday','monday','tuesday','wednesday','thursday','friday','saturday']`,
with `-1` rendered as `none` (helpers.ts 340-341 and 407-408). -/
def weekdayIndex (s : Str) : Option Int :=
  if s = "sunday".toList then some 0
  else if s = "monday".toList then some 1
  else if s = "tuesday".toList then some 2
  else if s = "wednesday".toList then some 3
  else if s = "thursday".toList then some 4
  else if s = "friday".toList then some 5
  else if s = "saturday".toList then some 6
  else none

/-- The due-date computation of the `due` rule (helpers.ts 331-351):
`today`/`tomorrow` at 23:59:59 local, `next <weekday>` with
`daysToAdd = target - current`, bumped by 7 when `daysToAdd <= 0`;
anything else leaves the date `undefined`. -/
def dueDateFor (today : CDate) (spec : Str) : Option Int :=
  if spec = "today".toList then
    some (toMs (mkCDate today.year today.month today.day) 86399000)
  else if spec = "tomorrow".toList then
    some (toMs (mkCDate today.year today.month (today.day + 1)) 86399000)
  else if "next ".toList <+: spec then
    match weekdayIndex (spec.drop 5) with
    | some targetDay =>
      let d0 := targetDay - getDay today
      let daysToAdd := if d0 ≤ 0 then d0 + 7 else d0
      some (toMs (mkCDate today.year today.month (today.day + daysToAdd))
        86399000)
    | none => none
  else none

/-- The `due` rule (helpers.ts 325-361), regex
`^due\s+(\S+(?:\s+\S+)?)\s+(.+)$`: the greedy first capture takes two words
whenever a third is left for `(.+)`, else one; a result (confidence 1) is
returned whenever the regex matches, even with an undefined date. -/
def dueRule (today : CDate) (ts : List Str) : Option CommandResult :=
  match ts with
  | t0 :: t1 :: t2 :: rest3 =>
    if t0 = "due".toList then
      let spec0 := if rest3 = [] then t1 else t1 ++ ' ' :: t2
      let term := if rest3 = [] then t2 else joinSp rest3
      let ds := lowerStr spec0
      some { type := CmdType.due, confidence := 1,
             searchTerm := some term, dueSpec := some ds,
             dueDate := dueDateFor today ds }
    else none
  | _ => none

/-- `(days?|weeks?|months?)` (helpers.ts 366). -/
def snoozeUnitOK (u : Str) : Bool :=
  decide (u = "day".toList ∨ u = "days".toList ∨ u = "week".toList ∨
    u = "weeks".toList ∨ u = "month".toList ∨ u = "months".toList)

/-- Unit normalisation of the snooze rule (helpers.ts 370-376). -/
def snoozeUnitOf (u : Str) : Str :=
  if "week".toList <+: u then "weeks".toList
  else if "month".toList <+: u then "months".toList
  else "days".toList

/-- The `snooze` rule (helpers.ts 365-385), regex
`^snooze\s+(.*?)\s+(\d+)\s+(days?|weeks?|months?)$`. -/
def snoozeRule (ts : List Str) : Option CommandResult :=
  match ts with
  | [] => none
  | t0 :: rest =>
    if t0 = "snooze".toList ∧ rest ≠ [] then
      match rest.getLast? with
      | some u =>
        match rest.dropLast.getLast? with
        | some num =>
          if allDigits num ∧ snoozeUnitOK u ∧ rest.length ≥ 3 then
            some { type := CmdType.snooze, confidence := 1,
                   searchTerm := some (joinSp (rest.dropLast.dropLast)),
                   snoozeAmount := some (natOfDigits num),
                   snoozeUnit := some (snoozeUnitOf u) }
          else none
        | none => none
      | none => none
    else none

/-- The `repeat` rule (helpers.ts 390-431): daily, weekly-on-weekday and
monthly regexes tried in order. -/
def repeatRule (ts : List Str) : Option CommandResult :=
  match ts with
  | [] => none
  | t0 :: rest =>
    if t0 = "repeat".toList ∧ rest ≠ [] then
      match rest with
      | [] => none
      | t1 :: rest2 =>
        if t1 = "daily".toList ∧ rest2 ≠ [] then
          some { type := CmdType.rep, confidence := 1,
                 searchTerm := some (joinSp rest2),
                 recurringType := some "daily".toList,
                 recurringInterval := some 1 }
        else if t1 = "weekly".toList then
          match rest2 with
          | t2 :: t3 :: rest4 =>
            if t2 = "on".toList ∧ rest4 ≠ [] then
              match weekdayIndex (lowerStr t3) with
              | some k =>
                some { type := CmdType.rep, confidence := 1,
                       searchTerm := some (joinSp rest4),
                       recurringType := some "weekly".toList,
                       recurringInterval := some 1,
                       recurringDays := some [k] }
              | none => none
            else none
          | _ => none
        else if t1 = "monthly".toList ∧ rest2 ≠ [] then
          some { type := CmdType.rep, confidence := 1,
                 searchTerm := some (joinSp rest2),
                 recurringType := some "monthly".toList,
                 recurringInterval := some 1 }
        else none
    else none

/-- The `am`/`pm` tail of a time word (`(?:am|pm)?` when it may sit in the
same word, else the word must end after the digits). -/
def ampmTail (allowAmPm : Bool) (r : Str) : Bool :=
  decide (r = [] ∨
    (allowAmPm = true ∧ (r = "am".toList ∨ r = "pm".toList)))

/-- One word against `\d{1,2}(?::\d{2})?` plus an optional in-word
`am`/`pm`. -/
def timeTokOK (allowAmPm : Bool) (u : Str) : Bool :=
  let d1 := u.takeWhile isDigitChar
  let r1 := u.dropWhile isDigitChar
  (decide (d1.length = 1 ∨ d1.length = 2)) &&
  (match r1 with
   | ':' :: r2 =>
     let d2 := r2.takeWhile isDigitChar
     let r3 := r2.dropWhile isDigitChar
     decide (d2.length = 2) && ampmTail allowAmPm r3
   | r1x => ampmTail allowAmPm r1x)

/-- The full time capture `\d{1,2}(?::\d{2})?\s*(?:am|pm)?` at the end of
the text: one word, or a digits word followed by a bare `am`/`pm` word. -/
def timeSpecOK (toks : List Str) : Bool :=
  match toks with
  | [u] => timeTokOK true u
  | [u, ap] =>
    (decide (ap = "am".toList ∨ ap = "pm".toList)) && timeTokOK false u
  | _ => false

/-- First `today`/`tomorrow` word whose following words form a valid time
capture ending the text. -/
def findDaySplit : List Str → Option (List Str × Str × List Str)
  | [] => none
  | t :: rest =>
    if (t = "today".toList ∨ t = "tomorrow".toList) ∧ timeSpecOK rest then
      some ([], t, rest)
    else (findDaySplit rest).map (fun p => (t :: p.1, p.2.1, p.2.2))

/-- As `findDaySplit` with a non-empty task-text part before the day word
(the lazy `(.*?)` is never empty on canonical text). -/
def findDaySplitMid : List Str → Option (List Str × Str × List Str)
  | [] => none
  | t :: rest =>
    (findDaySplit rest).map (fun p => (t :: p.1, p.2.1, p.2.2))

/-- Hour/minute extraction of the absolute reminder (helpers.ts 452-463):
`includes(':')`, `replace(/[^\d:]/g,'')`, `split(':')`, `parseInt`. -/
def timeHM (spec : Str) : Nat × Nat :=
  if spec.any (fun c => decide (c = ':')) then
    let kept := spec.filter (fun c => isDigitChar c || decide (c = ':'))
    let hpart := kept.takeWhile (fun c => !(decide (c = ':')))
    let mpart := (kept.dropWhile (fun c => !(decide (c = ':')))).drop 1
    (natOfDigits hpart, natOfDigits (mpart.takeWhile isDigitChar))
  else (natOfDigits (spec.filter isDigitChar), 0)

/-- The absolute reminder form (helpers.ts 437-481), regex
`^remind\s+me\s+(?:about\s+)?(.*?)\s+(today|tomorrow)\s+(\d{1,2}(?::\d{2})?\s*(?:am|pm)?)$`:
the greedy optional `about` is consumed when possible and backtracked
otherwise; `setHours(hours, minutes, 0, 0)` lands on the chosen day
(possibly rolled by hour overflow, which `toMs` absorbs). -/
def remindAbs (today : CDate) (ts : List Str) : Option CommandResult :=
  match ts with
  | _ :: t1 :: rest2 =>
    if t1 = "me".toList then
      let split :=
        match rest2 with
        | t2 :: r3 =>
          if t2 = "about".toList then
            match findDaySplitMid r3 with
            | some p => some p
            | none => findDaySplitMid rest2
          else findDaySplitMid rest2
        | [] => none
      match split with
      | some p =>
        let daySpec := lowerStr p.2.1
        let timeSpec := lowerStr (joinSp p.2.2)
        let hm := timeHM timeSpec
        let isAM := includesSub timeSpec "am".toList
        let isPM := includesSub timeSpec "pm".toList
        let h2 := if isPM ∧ hm.1 < 12 then hm.1 + 12
                  else if isAM ∧ hm.1 = 12 then 0 else hm.1
        let base := if daySpec = "tomorrow".toList then
                      setDate today (today.day + 1)
                    else today
        some { type := CmdType.remind, confidence := 1,
               searchTerm := some (joinSp p.1),
               reminderSpec := some (daySpec ++ ' ' :: timeSpec),
               reminderTime :=
                 some (toMs base ((h2 : Int) * 3600000 + (hm.2 : Int) * 60000)) }
      | none => none
    else none
  | _ => none

/-- The relative reminder form (helpers.ts 484-496), regex
`^remind\s+me\s+(\d+)\s+hours?\s+before\s+(.+)$`. -/
def remindRel (ts : List Str) : Option CommandResult :=
  match ts with
  | _ :: t1 :: t2 :: t3 :: t4 :: rest5 =>
    if t1 = "me".toList ∧ allDigits t2 ∧
        (t3 = "hour".toList ∨ t3 = "hours".toList) ∧
        t4 = "before".toList ∧ rest5 ≠ [] then
      some { type := CmdType.remind, confidence := 1,
             searchTerm := some (joinSp rest5),
             reminderRelativeHours := some (natOfDigits t2),
             reminderSpec :=
               some (natToStr (natOfDigits t2) ++ " hours before".toList) }
    else none
  | _ => none

/-- The `remind` rule (helpers.ts 435-497). -/
def remindRule (today : CDate) (ts : List Str) : Option CommandResult :=
  match ts with
  | [] => none
  | t0 :: rest =>
    if t0 = "remind".toList ∧ rest ≠ [] then
      match remindAbs today ts with
      | some r => some r
      | none => remindRel ts
    else none

/-- The `create project` rule (helpers.ts 501-510). -/
def createProjectRule (ts : List Str) : Option CommandResult :=
  match ts with
  | t0 :: t1 :: rest2 =>
    if t0 = "create".toList ∧ t1 = "project".toList ∧ rest2 ≠ [] then
      some { type := CmdType.project, confidence := 1,
             projectName := some (joinSp rest2) }
    else none
  | _ => none

/-- The `list projects` rule (helpers.ts 514-519). -/
def listProjectsRule (ts : List Str) : Option CommandResult :=
  if ts = ["list".toList, "projects".toList] then
    some { type := CmdType.project, confidence := 1 }
  else none

/-- The `sort by` rule (helpers.ts 523-551). -/
def sortRule (ts : List Str) : Option CommandResult :=
  match ts with
  | t0 :: t1 :: rest2 =>
    if t0 = "sort".toList ∧ t1 = "by".toList ∧ rest2 ≠ [] then
      let crit := lowerStr (joinSp rest2)
      if crit = "priority".toList then
        some { type := CmdType.sort, confidence := 1,
               sortCriteria := some "priority".toList }
      else if crit = "due date".toList then
        some { type := CmdType.sort, confidence := 1,
               sortCriteria := some "dueDate".toList }
      else if crit = "created".toList ∨ crit = "created date".toList then
        some { type := CmdType.sort, confidence := 1,
               sortCriteria := some "createdAt".toList }
      else if crit = "alphabetical".toList ∨ crit = "name".toList then
        some { type := CmdType.sort, confidence := 1,
               sortCriteria := some "alphabetical".toList }
      else none
    else none
  | _ => none

/-- The calendar toggle rule (helpers.ts 555-557). -/
def calendarRule (ts : List Str) : Option CommandResult :=
  if ts = ["calendar".toList] ∨ ts = ["view".toList, "calendar".toList] ∨
      ts = ["show".toList, "calendar".toList] ∨
      ts = ["toggle".toList, "calendar".toList] then
    some { type := CmdType.calendar, confidence := 1 }
  else none

/-- The theme rules (helpers.ts 561-565). -/
def darkLightRule (ts : List Str) : Option CommandResult :=
  if ts = ["dark".toList, "mode".toList] then
    some { type := CmdType.dark, confidence := 1 }
  else if ts = ["light".toList, "mode".toList] then
    some { type := CmdType.light, confidence := 1 }
  else none

/-- The `summarize` rule (helpers.ts 569-579). -/
def summarizeRule (ts : List Str) : Option CommandResult :=
  match ts with
  | [] => none
  | t0 :: rest =>
    if t0 = "summarize".toList ∧ rest ≠ [] then
      let period := lowerStr (joinSp rest)
      if period = "today".toList ∨ period = "this week".toList ∨
          period = "tomorrow".toList then
        some { type := CmdType.summarize, confidence := 1,
               dueSpec := some period }
      else none
    else none

/-- `parseCommandRuleBased` (helpers.ts 127-583): the rules in source
order; the first match wins, else `{type: 'unknown', confidence: 0}`. -/
def parseCommandRuleBased (today : CDate) (ts : List Str) : CommandResult :=
  (firstSome [helpRule ts, addRule ts, tickRule ts, deleteRule ts,
    archiveRule ts, tagRule ts, filterRule ts, priorityRule ts,
    dueRule today ts, snoozeRule ts, repeatRule ts, remindRule today ts,
    createProjectRule ts, listProjectsRule ts, sortRule ts, calendarRule ts,
    darkLightRule ts, summarizeRule ts]).getD
    { type := CmdType.unknown, confidence := 0 }

/-- `parseCommand` (helpers.ts 104-122): trims and lowercases, returns the
rule-based result when it is not `unknown` (or the text is empty), else an
`unknown` result carrying the processed text. -/
def parseCommand (today : CDate) (input : Str) : CommandResult :=
  let text := lowerStr (trimStr input)
  let r := parseCommandRuleBased today (splitWS text)
  if r.type ≠ CmdType.unknown ∨ text = [] then r
  else { type := CmdType.unknown, taskText := some text, confidence := 0 }


/-- Every `help` match carries confidence 1 and a known type. -/
lemma helpRule_conf (ts : List Str) (r : CommandResult)
    (h : helpRule ts = some r) :
    r.confidence = 1 ∧ r.type ≠ CmdType.unknown := by
  unfold helpRule at h
  repeat any_goals
    (first | exact Option.noConfusion h | split at h | split_ifs at h)
  all_goals obtain rfl := Option.some.inj h
  all_goals exact ⟨rfl, fun hx => CmdType.noConfusion hx⟩

/-- Every `add subtask` match carries confidence 1 and a known type. -/
lemma addSubtaskForm_conf (ts : List Str) (r : CommandResult)
    (h : addSubtaskForm ts = some r) :
    r.confidence = 1 ∧ r.type ≠ CmdType.unknown := by
  unfold addSubtaskForm at h
  repeat any_goals
    (first | exact Option.noConfusion h | split at h | split_ifs at h)
  all_goals obtain rfl := Option.some.inj h
  all_goals exact ⟨rfl, fun hx => CmdType.noConfusion hx⟩

/-- Every `add ... to ... project` match carries confidence 1 and a known
type. -/
lemma addProjectForm_conf (ts : List Str) (r : CommandResult)
    (h : addProjectForm ts = some r) :
    r.confidence = 1 ∧ r.type ≠ CmdType.unknown := by
  unfold addProjectForm at h
  repeat any_goals
    (first | exact Option.noConfusion h | split at h | split_ifs at h)
  all_goals obtain rfl := Option.some.inj h
  all_goals exact ⟨rfl, fun hx => CmdType.noConfusion hx⟩

/-- Every hashtag-form match carries confidence 1 and a known type. -/
lemma addHashtagForm_conf (rest : List Str) (r : CommandResult)
    (h : addHashtagForm rest = some r) :
    r.confidence = 1 ∧ r.type ≠ CmdType.unknown := by
  unfold addHashtagForm at h
  repeat any_goals
    (first | exact Option.noConfusion h | split at h | split_ifs at h)
  all_goals obtain rfl := Option.some.inj h
  all_goals exact ⟨rfl, fun hx => CmdType.noConfusion hx⟩

/-- Every as-form match carries confidence 1 and a known type. -/
lemma addAsForm_conf (rest : List Str) (r : CommandResult)
    (h : addAsForm rest = some r) :
    r.confidence = 1 ∧ r.type ≠ CmdType.unknown := by
  unfold addAsForm at h
  repeat any_goals
    (first | exact Option.noConfusion h | split at h | split_ifs at h)
  all_goals obtain rfl := Option.some.inj h
  all_goals exact ⟨rfl, fun hx => CmdType.noConfusion hx⟩

/-- Every priority-form match carries confidence 1 and a known type. -/
lemma addPriorityForm_conf (rest : List Str) (r : CommandResult)
    (h : addPriorityForm rest = some r) :
    r.confidence = 1 ∧ r.type ≠ CmdType.unknown := by
  unfold addPriorityForm at h
  repeat any_goals
    (first | exact Option.noConfusion h | split at h | split_ifs at h)
  all_goals obtain rfl := Option.some.inj h
  all_goals exact ⟨rfl, fun hx => CmdType.noConfusion hx⟩

/-- Every `add` result carries confidence 1 and a known type. -/
lemma addRule_conf (ts : List Str) (r : CommandResult)
    (h : addRule ts = some r) :
    r.confidence = 1 ∧ r.type ≠ CmdType.unknown := by
  cases ts with
  | nil => exact Option.noConfusion h
  | cons t0 rest =>
    simp only [addRule] at h
    split_ifs at h
    obtain rfl := Option.some.inj h
    cases hs : addSubtaskForm (t0 :: rest) with
    | some r1 => exact addSubtaskForm_conf _ _ hs
    | none =>
      cases hp : addProjectForm (t0 :: rest) with
      | some r1 => exact addProjectForm_conf _ _ hp
      | none =>
        cases hh : addHashtagForm rest with
        | some r1 => exact addHashtagForm_conf _ _ hh
        | none =>
          cases ha : addAsForm rest with
          | some r1 => exact addAsForm_conf _ _ ha
          | none =>
            cases hq : addPriorityForm rest with
            | some r1 => exact addPriorityForm_conf _ _ hq
            | none => exact ⟨rfl, fun hx => CmdType.noConfusion hx⟩

/-- Every tick-subtask match carries confidence 1 and a known type. -/
lemma tickSubtaskForm_conf (ts : List Str) (r : CommandResult)
    (h : tickSubtaskForm ts = some r) :
    r.confidence = 1 ∧ r.type ≠ CmdType.unknown := by
  unfold tickSubtaskForm at h
  repeat any_goals
    (first | exact Option.noConfusion h | split at h | split_ifs at h)
  all_goals obtain rfl := Option.some.inj h
  all_goals exact ⟨rfl, fun hx => CmdType.noConfusion hx⟩

/-- Every `tick`/`complete` result carries confidence 1 and a known type. -/
lemma tickRule_conf (ts : List Str) (r : CommandResult)
    (h : tickRule ts = some r) :
    r.confidence = 1 ∧ r.type ≠ CmdType.unknown := by
  cases ts with
  | nil => exact Option.noConfusion h
  | cons t0 rest =>
    simp only [tickRule] at h
    split_ifs at h
    obtain rfl := Option.some.inj h
    cases hs : tickSubtaskForm (t0 :: rest) with
    | some r1 => exact tickSubtaskForm_conf _ _ hs
    | none =>
      cases rest with
      | nil => exact ⟨rfl, fun hx => CmdType.noConfusion hx⟩
      | cons t1 rest2 =>
        by_cases hc : t1 = "all".toList ∧ rest2 ≠ []
        · simp only [hs, if_pos hc] <;> refine ⟨?_, ?_⟩ <;>
            first | rfl | trivial | decide
        · simp only [hs, if_neg hc] <;> refine ⟨?_, ?_⟩ <;>
            first | rfl | trivial | decide

/-- Every `delete`/`remove` result carries confidence 1 and a known type. -/
lemma deleteRule_conf (ts : List Str) (r : CommandResult)
    (h : deleteRule ts = some r) :
    r.confidence = 1 ∧ r.type ≠ CmdType.unknown := by
  cases ts with
  | nil => exact Option.noConfusion h
  | cons t0 rest =>
    simp only [deleteRule] at h
    split_ifs at h
    obtain rfl := Option.some.inj h
    cases rest with
    | nil => exact ⟨rfl, fun hx => CmdType.noConfusion hx⟩
    | cons t1 rest2 =>
      by_cases hc : t1 = "all".toList ∧ rest2 ≠ []
      · simp only [if_pos hc] <;> refine ⟨?_, ?_⟩ <;>
          first | rfl | trivial | decide
      · simp only [if_neg hc] <;> refine ⟨?_, ?_⟩ <;>
          first | rfl | trivial | decide

/-- Every `archive` result carries confidence 1 and a known type. -/
lemma archiveRule_conf (ts : List Str) (r : CommandResult)
    (h : archiveRule ts = some r) :
    r.confidence = 1 ∧ r.type ≠ CmdType.unknown := by
  cases ts with
  | nil => exact Option.noConfusion h
  | cons t0 rest =>
    simp only [archiveRule] at h
    split_ifs at h
    obtain rfl := Option.some.inj h
    cases rest with
    | nil => exact ⟨rfl, fun hx => CmdType.noConfusion hx⟩
    | cons t1 rest2 =>
      by_cases hc : t1 = "all".toList ∧ rest2 ≠ []
      · simp only [if_pos hc] <;> refine ⟨?_, ?_⟩ <;>
          first | rfl | trivial | decide
      · by_cases hc2 : t1 = "completed".toList ∧ rest2 = []
        · simp only [if_neg hc, if_pos hc2] <;> refine ⟨?_, ?_⟩ <;>
            first | rfl | trivial | decide
        · simp only [if_neg hc, if_neg hc2] <;> refine ⟨?_, ?_⟩ <;>
            first | rfl | trivial | decide

/-- Every `tag` match carries confidence 1 and a known type. -/
lemma tagRule_conf (ts : List Str) (r : CommandResult)
    (h : tagRule ts = some r) :
    r.confidence = 1 ∧ r.type ≠ CmdType.unknown := by
  unfold tagRule at h
  repeat any_goals
    (first | exact Option.noConfusion h | split at h | split_ifs at h)
  all_goals obtain rfl := Option.some.inj h
  all_goals exact ⟨rfl, fun hx => CmdType.noConfusion hx⟩

/-- Every `filter`/`show` match carries confidence 1 and a known type. -/
lemma filterRule_conf (ts : List Str) (r : CommandResult)
    (h : filterRule ts = some r) :
    r.confidence = 1 ∧ r.type ≠ CmdType.unknown := by
  simp only [filterRule] at h
  repeat any_goals
    (first | exact Option.noConfusion h | split at h | split_ifs at h)
  all_goals obtain rfl := Option.some.inj h
  all_goals exact ⟨rfl, fun hx => CmdType.noConfusion hx⟩

/-- Every `priority` match carries confidence 1 and a known type. -/
lemma priorityRule_conf (ts : List Str) (r : CommandResult)
    (h : priorityRule ts = some r) :
    r.confidence = 1 ∧ r.type ≠ CmdType.unknown := by
  unfold priorityRule at h
  repeat any_goals
    (first | exact Option.noConfusion h | split at h | split_ifs at h)
  all_goals obtain rfl := Option.some.inj h
  all_goals exact ⟨rfl, fun hx => CmdType.noConfusion hx⟩

/-- Every `due` match carries confidence 1 and a known type. -/
lemma dueRule_conf (today : CDate) (ts : List Str) (r : CommandResult)
    (h : dueRule today ts = some r) :
    r.confidence = 1 ∧ r.type ≠ CmdType.unknown := by
  simp only [dueRule] at h
  repeat any_goals
    (first | exact Option.noConfusion h | split at h | split_ifs at h)
  all_goals obtain rfl := Option.some.inj h
  all_goals exact ⟨rfl, fun hx => CmdType.noConfusion hx⟩

/-- Every `snooze` match carries confidence 1 and a known type. -/
lemma snoozeRule_conf (ts : List Str) (r : CommandResult)
    (h : snoozeRule ts = some r) :
    r.confidence = 1 ∧ r.type ≠ CmdType.unknown := by
  unfold snoozeRule at h
  repeat any_goals
    (first | exact Option.noConfusion h | split at h | split_ifs at h)
  all_goals obtain rfl := Option.some.inj h
  all_goals exact ⟨rfl, fun hx => CmdType.noConfusion hx⟩

/-- Every `repeat` match carries confidence 1 and a known type. -/
lemma repeatRule_conf (ts : List Str) (r : CommandResult)
    (h : repeatRule ts = some r) :
    r.confidence = 1 ∧ r.type ≠ CmdType.unknown := by
  unfold repeatRule at h
  repeat any_goals
    (first | exact Option.noConfusion h | split at h | split_ifs at h)
  all_goals obtain rfl := Option.some.inj h
  all_goals exact ⟨rfl, fun hx => CmdType.noConfusion hx⟩

/-- Every absolute reminder match carries confidence 1 and a known type. -/
lemma remindAbs_conf (today : CDate) (ts : List Str) (r : CommandResult)
    (h : remindAbs today ts = some r) :
    r.confidence = 1 ∧ r.type ≠ CmdType.unknown := by
  simp only [remindAbs] at h
  repeat any_goals
    (first | exact Option.noConfusion h | split at h | split_ifs at h)
  all_goals obtain rfl := Option.some.inj h
  all_goals exact ⟨rfl, fun hx => CmdType.noConfusion hx⟩

/-- Every relative reminder match carries confidence 1 and a known type. -/
lemma remindRel_conf (ts : List Str) (r : CommandResult)
    (h : remindRel ts = some r) :
    r.confidence = 1 ∧ r.type ≠ CmdType.unknown := by
  unfold remindRel at h
  repeat any_goals
    (first | exact Option.noConfusion h | split at h | split_ifs at h)
  all_goals obtain rfl := Option.some.inj h
  all_goals exact ⟨rfl, fun hx => CmdType.noConfusion hx⟩

/-- Every `remind` match carries confidence 1 and a known type. -/
lemma remindRule_conf (today : CDate) (ts : List Str) (r : CommandResult)
    (h : remindRule today ts = some r) :
    r.confidence = 1 ∧ r.type ≠ CmdType.unknown := by
  cases ts with
  | nil => exact Option.noConfusion h
  | cons t0 rest =>
    simp only [remindRule] at h
    split_ifs at h
    cases ha : remindAbs today (t0 :: rest) with
    | some r1 =>
      rw [ha] at h
      obtain rfl := Option.some.inj h
      exact remindAbs_conf _ _ _ ha
    | none =>
      rw [ha] at h
      exact remindRel_conf _ _ h

/-- Every `create project` match carries confidence 1 and a known type. -/
lemma createProjectRule_conf (ts : List Str) (r : CommandResult)
    (h : createProjectRule ts = some r) :
    r.confidence = 1 ∧ r.type ≠ CmdType.unknown := by
  unfold createProjectRule at h
  repeat any_goals
    (first | exact Option.noConfusion h | split at h | split_ifs at h)
  all_goals obtain rfl := Option.some.inj h
  all_goals exact ⟨rfl, fun hx => CmdType.noConfusion hx⟩

/-- Every `list projects` match carries confidence 1 and a known type. -/
lemma listProjectsRule_conf (ts : List Str) (r : CommandResult)
    (h : listProjectsRule ts = some r) :
    r.confidence = 1 ∧ r.type ≠ CmdType.unknown := by
  unfold listProjectsRule at h
  repeat any_goals
    (first | exact Option.noConfusion h | split at h | split_ifs at h)
  all_goals obtain rfl := Option.some.inj h
  all_goals exact ⟨rfl, fun hx => CmdType.noConfusion hx⟩

/-- Every `sort by` match carries confidence 1 and a known type. -/
lemma sortRule_conf (ts : List Str) (r : CommandResult)
    (h : sortRule ts = some r) :
    r.confidence = 1 ∧ r.type ≠ CmdType.unknown := by
  simp only [sortRule] at h
  repeat any_goals
    (first | exact Option.noConfusion h | split at h | split_ifs at h)
  all_goals obtain rfl := Option.some.inj h
  all_goals exact ⟨rfl, fun hx => CmdType.noConfusion hx⟩

/-- Every calendar match carries confidence 1 and a known type. -/
lemma calendarRule_conf (ts : List Str) (r : CommandResult)
    (h : calendarRule ts = some r) :
    r.confidence = 1 ∧ r.type ≠ CmdType.unknown := by
  unfold calendarRule at h
  repeat any_goals
    (first | exact Option.noConfusion h | split at h | split_ifs at h)
  all_goals obtain rfl := Option.some.inj h
  all_goals exact ⟨rfl, fun hx => CmdType.noConfusion hx⟩

/-- Every theme match carries confidence 1 and a known type. -/
lemma darkLightRule_conf (ts : List Str) (r : CommandResult)
    (h : darkLightRule ts = some r) :
    r.confidence = 1 ∧ r.type ≠ CmdType.unknown := by
  unfold darkLightRule at h
  repeat any_goals
    (first | exact Option.noConfusion h | split at h | split_ifs at h)
  all_goals obtain rfl := Option.some.inj h
  all_goals exact ⟨rfl, fun hx => CmdType.noConfusion hx⟩

/-- Every `summarize` match carries confidence 1 and a known type. -/
lemma summarizeRule_conf (ts : List Str) (r : CommandResult)
    (h : summarizeRule ts = some r) :
    r.confidence = 1 ∧ r.type ≠ CmdType.unknown := by
  simp only [summarizeRule] at h
  repeat any_goals
    (first | exact Option.noConfusion h | split at h | split_ifs at h)
  all_goals obtain rfl := Option.some.inj h
  all_goals exact ⟨rfl, fun hx => CmdType.noConfusion hx⟩

/-- A `firstSome` hit is one of the attempted options. -/
lemma firstSome_mem {α : Type _} :
    ∀ (l : List (Option α)) (a : α), firstSome l = some a → (some a) ∈ l := by
  intro l
  induction l with
  | nil => intro a h; exact Option.noConfusion h
  | cons o os ih =>
    intro a h
    unfold firstSome at h
    cases o with
    | some b =>
      obtain rfl := Option.some.inj h
      exact List.mem_cons_self _ _
    | none => exact List.mem_cons_of_mem _ (ih a h)

/-- The rule-based parser returns either the unknown result with
confidence 0 or a rule match with confidence 1. -/
lemma ruleBased_conf (today : CDate) (ts : List Str) :
    ((parseCommandRuleBased today ts).type = CmdType.unknown ∧
      (parseCommandRuleBased today ts).confidence = 0) ∨
    ((parseCommandRuleBased today ts).type ≠ CmdType.unknown ∧
      (parseCommandRuleBased today ts).confidence = 1) := by
  unfold parseCommandRuleBased
  cases hfs : firstSome [helpRule ts, addRule ts, tickRule ts, deleteRule ts,
      archiveRule ts, tagRule ts, filterRule ts, priorityRule ts,
      dueRule today ts, snoozeRule ts, repeatRule ts, remindRule today ts,
      createProjectRule ts, listProjectsRule ts, sortRule ts, calendarRule ts,
      darkLightRule ts, summarizeRule ts] with
  | none => left; exact ⟨rfl, rfl⟩
  | some r =>
    right
    simp only [Option.getD_some]
    have hmem := firstSome_mem _ _ hfs
    simp only [List.mem_cons, List.not_mem_nil, or_false] at hmem
    rcases hmem with h|h|h|h|h|h|h|h|h|h|h|h|h|h|h|h|h|h
    · have hc := helpRule_conf ts r h.symm; exact ⟨hc.2, hc.1⟩
    · have hc := addRule_conf ts r h.symm; exact ⟨hc.2, hc.1⟩
    · have hc := tickRule_conf ts r h.symm; exact ⟨hc.2, hc.1⟩
    · have hc := deleteRule_conf ts r h.symm; exact ⟨hc.2, hc.1⟩
    · have hc := archiveRule_conf ts r h.symm; exact ⟨hc.2, hc.1⟩
    · have hc := tagRule_conf ts r h.symm; exact ⟨hc.2, hc.1⟩
    · have hc := filterRule_conf ts r h.symm; exact ⟨hc.2, hc.1⟩
    · have hc := priorityRule_conf ts r h.symm; exact ⟨hc.2, hc.1⟩
    · have hc := dueRule_conf today ts r h.symm; exact ⟨hc.2, hc.1⟩
    · have hc := snoozeRule_conf ts r h.symm; exact ⟨hc.2, hc.1⟩
    · have hc := repeatRule_conf ts r h.symm; exact ⟨hc.2, hc.1⟩
    · have hc := remindRule_conf today ts r h.symm; exact ⟨hc.2, hc.1⟩
    · have hc := createProjectRule_conf ts r h.symm; exact ⟨hc.2, hc.1⟩
    · have hc := listProjectsRule_conf ts r h.symm; exact ⟨hc.2, hc.1⟩
    · have hc := sortRule_conf ts r h.symm; exact ⟨hc.2, hc.1⟩
    · have hc := calendarRule_conf ts r h.symm; exact ⟨hc.2, hc.1⟩
    · have hc := darkLightRule_conf ts r h.symm; exact ⟨hc.2, hc.1⟩
    · have hc := summarizeRule_conf ts r h.symm; exact ⟨hc.2, hc.1⟩


/-- None of the rules preceding the `due` rule fires on a `due`-headed
command of at least three words. -/
lemma preDue_none (t1 t2 : Str) (rest3 : List Str) :
    helpRule ("due".toList :: t1 :: t2 :: rest3) = none ∧
    addRule ("due".toList :: t1 :: t2 :: rest3) = none ∧
    tickRule ("due".toList :: t1 :: t2 :: rest3) = none ∧
    deleteRule ("due".toList :: t1 :: t2 :: rest3) = none ∧
    archiveRule ("due".toList :: t1 :: t2 :: rest3) = none ∧
    tagRule ("due".toList :: t1 :: t2 :: rest3) = none ∧
    filterRule ("due".toList :: t1 :: t2 :: rest3) = none ∧
    priorityRule ("due".toList :: t1 :: t2 :: rest3) = none := by
  refine ⟨?_, ?_, ?_, ?_, ?_, ?_, ?_, ?_⟩
  · simp [helpRule]
  · simp only [addRule]
    rw [if_neg (fun hc => absurd hc.1 (by decide))]
  · simp only [tickRule]
    rw [if_neg (fun hc => hc.1.elim (fun hx => absurd hx (by decide))
      (fun hx => absurd hx (by decide)))]
  · simp only [deleteRule]
    rw [if_neg (fun hc => hc.1.elim (fun hx => absurd hx (by decide))
      (fun hx => absurd hx (by decide)))]
  · simp only [archiveRule]
    rw [if_neg (fun hc => absurd hc.1 (by decide))]
  · simp only [tagRule]
    rw [if_neg (fun hc => absurd hc.1 (by decide))]
  · simp only [filterRule]
    rw [if_neg (fun hc => hc.1.elim (fun hx => absurd hx (by decide))
      (fun hx => absurd hx (by decide)))]
  · simp only [priorityRule]
    rw [if_neg (fun hc => absurd hc.1 (by decide))]

/-- On a `due`-headed command of at least three words, the rule-based
parser returns exactly the `due` rule's result. -/
lemma ruleBased_due (today : CDate) (t1 t2 : Str) (rest3 : List Str) :
    parseCommandRuleBased today ("due".toList :: t1 :: t2 :: rest3)
      = { type := CmdType.due, confidence := 1,
          searchTerm := some (if rest3 = [] then t2 else joinSp rest3),
          dueSpec := some (lowerStr (if rest3 = [] then t1 else t1 ++ ' ' :: t2)),
          dueDate := dueDateFor today
            (lowerStr (if rest3 = [] then t1 else t1 ++ ' ' :: t2)) } := by
  obtain ⟨h1, h2, h3, h4, h5, h6, h7, h8⟩ := preDue_none t1 t2 rest3
  simp only [parseCommandRuleBased, firstSome, h1, h2, h3, h4, h5, h6, h7, h8,
    dueRule]
  simp


/-- C7, counterexample: `due today buy milk` is parsed with the greedy
two-word capture, so the due spec becomes "today buy" and the due date is
left undefined, not 23:59:59 of the current day; the single-word form
`due today groceries` does get the 23:59:59 stamp. -/
theorem C7_due_today_multiword_loses_date :
    (parseCommand ⟨2024, 0, 3⟩ "due today buy milk".toList).type
      = CmdType.due ∧
    (parseCommand ⟨2024, 0, 3⟩ "due today buy milk".toList).dueSpec
      = some "today buy".toList ∧
    (parseCommand ⟨2024, 0, 3⟩ "due today buy milk".toList).dueDate = none ∧
    (parseCommand ⟨2024, 0, 3⟩ "due today groceries".toList).dueDate
      = some (toMs ⟨2024, 0, 3⟩ 86399000) :=
  ⟨by decide, by decide, by decide, by decide⟩

/-- C7, amended: `due today <w>` with a single further word yields the
23:59:59 stamp on the current calendar date for every time of day (the
date payload does not depend on the current time), and `due next
<weekday> <text>` issued on a day of that same weekday always lands
exactly 7 days later, never the same day; but with more than one word of
task text after `due today`, the greedy capture swallows `today <w1>` as
the due spec and the due date is left undefined (the counterexample). -/
theorem C7_due_amended (today : CDate) (hv : Valid today) :
    (∀ w : Str,
      parseCommandRuleBased today ["due".toList, "today".toList, w]
        = { type := CmdType.due, confidence := 1, searchTerm := some w,
            dueSpec := some "today".toList,
            dueDate := some (toMs (setDate today today.day) 86399000) } ∧
      toDays (setDate today today.day) = toDays today) ∧
    (∀ (wd : Str) (k : Int) (rest : List Str), rest ≠ [] →
      lowerStr wd = wd → weekdayIndex wd = some k → getDay today = k →
      parseCommandRuleBased today
          ("due".toList :: "next".toList :: wd :: rest)
        = { type := CmdType.due, confidence := 1,
            searchTerm := some (joinSp rest),
            dueSpec := some ("next ".toList ++ wd),
            dueDate := some (toMs (setDate today (today.day + 7)) 86399000) } ∧
      toDays (setDate today (today.day + 7)) = toDays today + 7) := by
  constructor
  · intro w
    have hlow : lowerStr "today".toList = "today".toList := by decide
    have hdf : dueDateFor today "today".toList
        = some (toMs (setDate today today.day) 86399000) := by
      simp [dueDateFor, setDate]
    constructor
    · rw [ruleBased_due,
        show (if ([] : List Str) = [] then w else joinSp []) = w from rfl,
        show (if ([] : List Str) = [] then "today".toList
          else "today".toList ++ ' ' :: w) = "today".toList from rfl,
        hlow, hdf]
    · have hb := setDate_adds today hv 0 (by omega)
      simpa using hb.1
  · intro wd k rest hrest hlw hwk hgd
    obtain ⟨r0, rs, rfl⟩ := List.exists_cons_of_ne_nil hrest
    have hns : "next ".toList = 'n' :: 'e' :: 'x' :: 't' :: ' ' :: [] := by
      decide
    have hchars : "next".toList ++ ' ' :: wd = "next ".toList ++ wd := by
      rw [hns]
      rw [show "next".toList = 'n' :: 'e' :: 'x' :: 't' :: [] from by decide]
      rfl
    have hlow2 : lowerStr ("next".toList ++ ' ' :: wd)
        = "next ".toList ++ wd := by
      simp only [lowerStr, List.map_append, List.map_cons]
      rw [show "next".toList.map Char.toLower = "next".toList from by decide,
        show Char.toLower ' ' = ' ' from by decide]
      simp only [lowerStr] at hlw
      rw [hlw, hchars]
    have hne1 : "next ".toList ++ wd ≠ "today".toList := by
      intro h
      rw [hns] at h
      have h0 := congrArg (fun l => List.headD l ' ') h
      simp only [List.cons_append, List.headD_cons] at h0
      exact absurd h0 (by decide)
    have hne2 : "next ".toList ++ wd ≠ "tomorrow".toList := by
      intro h
      rw [hns] at h
      have h0 := congrArg (fun l => List.headD l ' ') h
      simp only [List.cons_append, List.headD_cons] at h0
      exact absurd h0 (by decide)
    have hdrop : ("next ".toList ++ wd).drop 5 = wd := by
      rw [hns]
      rfl
    have hdf : dueDateFor today ("next ".toList ++ wd)
        = some (toMs (setDate today (today.day + 7)) 86399000) := by
      unfold dueDateFor
      rw [if_neg hne1, if_neg hne2,
        if_pos (List.prefix_append "next ".toList wd), hdrop, hwk]
      simp only [hgd, sub_self]
      rw [if_pos (by omega : (0 : Int) ≤ 0)]
      simp [setDate]
    constructor
    · rw [ruleBased_due]
      have hcons : (r0 :: rs : List Str) ≠ [] := by simp
      rw [if_neg hcons, if_neg hcons, hlow2, hdf]
    · exact (setDate_adds today hv 7 (by omega)).1

/-- Witness: the amended due-parsing theorem at 2024-01-03 (a Wednesday),
for `due today milk` and `due next wednesday milk`. -/
theorem C7_due_amended_witness :
    Valid ⟨2024, 0, 3⟩ ∧
    (parseCommandRuleBased ⟨2024, 0, 3⟩
        ["due".toList, "today".toList, "milk".toList]
      = { type := CmdType.due, confidence := 1,
          searchTerm := some "milk".toList,
          dueSpec := some "today".toList,
          dueDate := some (toMs (setDate ⟨2024, 0, 3⟩ 3) 86399000) } ∧
      toDays (setDate ⟨2024, 0, 3⟩ 3) = toDays ⟨2024, 0, 3⟩) ∧
    (parseCommandRuleBased ⟨2024, 0, 3⟩
        ("due".toList :: "next".toList :: "wednesday".toList
          :: ["milk".toList])
      = { type := CmdType.due, confidence := 1,
          searchTerm := some (joinSp ["milk".toList]),
          dueSpec := some ("next ".toList ++ "wednesday".toList),
          dueDate := some (toMs (setDate ⟨2024, 0, 3⟩ (3 + 7)) 86399000) } ∧
      toDays (setDate ⟨2024, 0, 3⟩ (3 + 7)) = toDays ⟨2024, 0, 3⟩ + 7) :=
  ⟨by decide,
   (C7_due_amended ⟨2024, 0, 3⟩ (by decide)).1 "milk".toList,
   (C7_due_amended ⟨2024, 0, 3⟩ (by decide)).2 "wednesday".toList 3
     ["milk".toList] (by simp) (by decide) (by decide) (by decide)⟩

/-- C1, counterexample: an unmatched input does get `type = unknown` and
`confidence = 0`, but `taskText` is the trimmed LOWERCASED text, not the
original text as claimed. -/
theorem C1_taskText_lowercased :
    parseCommand ⟨2024, 0, 3⟩ "Hello World".toList =
      { type := CmdType.unknown, taskText := some "hello world".toList,
        confidence := 0 } ∧
    "hello world".toList ≠ "Hello World".toList :=
  ⟨by decide, by decide⟩

/-- C1, amended: the rule-based layer returns either an unknown result
with confidence 0 or a rule match with confidence 1 and its extracted
fields (each rule's extraction is the corresponding rule definition);
`parseCommand` forwards a rule match unchanged, and on a non-empty
unmatched input returns `type = unknown`, `confidence = 0` and `taskText`
set to the trimmed, lowercased input (not the original text); an empty
input yields the bare unknown result without `taskText`. -/
theorem C1_parse_amended (today : CDate) (input : Str) :
    (((parseCommandRuleBased today (splitWS (lowerStr (trimStr input)))).type
        = CmdType.unknown ∧
      (parseCommandRuleBased today
        (splitWS (lowerStr (trimStr input)))).confidence = 0) ∨
     ((parseCommandRuleBased today (splitWS (lowerStr (trimStr input)))).type
        ≠ CmdType.unknown ∧
      (parseCommandRuleBased today
        (splitWS (lowerStr (trimStr input)))).confidence = 1)) ∧
    ((parseCommandRuleBased today (splitWS (lowerStr (trimStr input)))).type
        ≠ CmdType.unknown →
      parseCommand today input
        = parseCommandRuleBased today (splitWS (lowerStr (trimStr input)))) ∧
    ((parseCommandRuleBased today (splitWS (lowerStr (trimStr input)))).type
        = CmdType.unknown → lowerStr (trimStr input) ≠ [] →
      parseCommand today input
        = { type := CmdType.unknown,
            taskText := some (lowerStr (trimStr input)), confidence := 0 }) ∧
    ((parseCommandRuleBased today (splitWS (lowerStr (trimStr input)))).type
        = CmdType.unknown → lowerStr (trimStr input) = [] →
      parseCommand today input
        = parseCommandRuleBased today
            (splitWS (lowerStr (trimStr input)))) := by
  refine ⟨ruleBased_conf today _, ?_, ?_, ?_⟩
  · intro hne
    simp only [parseCommand]
    rw [if_pos (Or.inl hne)]
  · intro hunk hne
    simp only [parseCommand]
    rw [if_neg (fun hor => hor.elim (fun hh => hh hunk) hne)]
  · intro _ hemp
    simp only [parseCommand]
    rw [if_pos (Or.inr hemp)]


/-! ## Natural-language extraction tiers
(src/app/utils/huggingface.ts and src/app/api/parse-task/route.ts)

`chrono.parseDate` and the `Date` constructor are external libraries and
are modelled as oracles `Str → Option Int` (millisecond timestamps).  The
char-level scanners below translate the source regular expressions
directly; the title machinery additionally uses the word-token view of the
text (as in the command-parser section), exact on canonically spaced text
made of word-character tokens. -/

/-- Case-insensitive literal prefix strip: the pattern is given in
lowercase and consumes matching characters of the subject. -/
def stripPrefixCI : Str → Str → Option Str
  | [], s => some s
  | _ :: _, [] => none
  | p :: ps, c :: cs => if Char.toLower c = p then stripPrefixCI ps cs else none

/-- Regex `\b` to the left of a word character: start of text or a
non-word character before. -/
def boundaryPrev : Option Char → Bool
  | none => true
  | some c => !isWordChar c

/-- Regex `\b` to the right of a word character: end of text or a
non-word character after. -/
def boundaryNext : Str → Bool
  | [] => true
  | c :: _ => !isWordChar c

/-- Scan for `\b<pat>\b` (case-insensitive), carrying the previous
character for the left boundary. -/
def scanPhrase (pat : Str) (prev : Option Char) : Str → Bool
  | [] => false
  | c :: rest =>
    (boundaryPrev prev &&
      (match stripPrefixCI pat (c :: rest) with
       | some r => boundaryNext r
       | none => false)) || scanPhrase pat (some c) rest

/-- `/\b<pat>\b/i.test(text)` for a pattern starting and ending in word
characters (route.ts 360-363). -/
def testBoundedPhrase (pat : Str) (text : Str) : Bool := scanPhrase pat none text

/-- The tail `tags?\b` of the delete-tags pattern. -/
def tagsTail : Str → Bool
  | [] => true
  | c :: r2 =>
    if Char.toLower c = 's' then
      match r2 with
      | [] => true
      | d :: _ => !isWordChar d
    else !isWordChar c

/-- One anchored attempt of `(delete|remove)\s+tags?\b`. -/
def delRemTagsAt (s : Str) : Bool :=
  match (match stripPrefixCI "delete".toList s with
         | some r => some r
         | none => stripPrefixCI "remove".toList s) with
  | none => false
  | some r1 =>
    match r1 with
    | [] => false
    | c :: _ =>
      if isWSChar c then
        match stripPrefixCI "tag".toList (r1.dropWhile isWSChar) with
        | some r3 => tagsTail r3
        | none => false
      else false

/-- Scan for `\b(delete|remove)\s+tags?\b`. -/
def scanDelRemTags (prev : Option Char) : Str → Bool
  | [] => false
  | c :: rest =>
    (boundaryPrev prev && delRemTagsAt (c :: rest)) ||
      scanDelRemTags (some c) rest

/-- `/\b(delete|remove)\s+tags?\b/i.test(text)` (huggingface.ts 227-228,
route.ts 383). -/
def testDeleteTags (text : Str) : Bool := scanDelRemTags none text

/-- State machine for the global regex `/#(\w+)/g` (huggingface.ts
235-241): `cur` holds the reversed word collected since the last `#`. -/
def hashTagsGo (cur : Option Str) : Str → List Str
  | [] =>
    (match cur with
     | some w => if w ≠ [] then [w.reverse] else []
     | none => [])
  | c :: rest =>
    match cur with
    | some w =>
      if isWordChar c then hashTagsGo (some (c :: w)) rest
      else
        (if w ≠ [] then [w.reverse] else [])
          ++ hashTagsGo (if c = '#' then some [] else none) rest
    | none => hashTagsGo (if c = '#' then some [] else none) rest

/-- All `#word` tags of the text, in order. -/
def hashTags (text : Str) : List Str := hashTagsGo none text

/-- One anchored attempt of `(?:tag|hashtag) is (\w+)` (`tag` alternative
first); returns the word and the remainder after the match. -/
def tagIsAt (s : Str) : Option (Str × Str) :=
  match stripPrefixCI "tag is ".toList s with
  | some r =>
    let w := r.takeWhile isWordChar
    if w ≠ [] then some (w, r.dropWhile isWordChar) else none
  | none =>
    match stripPrefixCI "hashtag is ".toList s with
    | some r =>
      let w := r.takeWhile isWordChar
      if w ≠ [] then some (w, r.dropWhile isWordChar) else none
    | none => none

/-- Global scan of `/(?:tag|hashtag) is (\w+)/gi` (huggingface.ts
244-252); the fuel is the text length, an upper bound on the steps. -/
def tagIsScan (fuel : Nat) (s : Str) : List Str :=
  match fuel with
  | 0 => []
  | fuel + 1 =>
    match s with
    | [] => []
    | c :: rest =>
      match tagIsAt (c :: rest) with
      | some p => p.1 :: tagIsScan fuel p.2
      | none => tagIsScan fuel rest

/-- The tag extraction of Tier C (huggingface.ts 227-256): `#` tags plus
deduplicated "tag is"/"hashtag is" words, or nothing when the text asks to
delete tags. -/
def clientSideTags (text : Str) : List Str :=
  if testDeleteTags text then []
  else
    (tagIsScan text.length text).foldl
      (fun acc w => if w ∈ acc then acc else acc ++ [w]) (hashTags text)

/-- First `!(\w+)` capture (huggingface.ts 260). -/
def bangWord : Str → Option Str
  | [] => none
  | c :: rest =>
    if c = '!' then
      let w := rest.takeWhile isWordChar
      if w ≠ [] then some w else bangWord rest
    else bangWord rest

/-- First `priority is (\w+)` capture (huggingface.ts 277). -/
def priorityIsWord : Str → Option Str
  | [] => none
  | c :: rest =>
    match stripPrefixCI "priority is ".toList (c :: rest) with
    | some r =>
      let w := r.takeWhile isWordChar
      if w ≠ [] then some w else priorityIsWord rest
    | none => priorityIsWord rest

/-- The priority word table shared by both formats (huggingface.ts
264-271 and 280-288). -/
def priorityFromWord (w : Str) : Option Str :=
  let p := lowerStr w
  if p = "high".toList ∨ p = "urgent".toList ∨ p = "important".toList then
    some "high".toList
  else if p = "medium".toList ∨ p = "normal".toList then some "medium".toList
  else if p = "low".toList then some "low".toList
  else none

/-- The priority extraction of Tier C: an explicit `!word` wins (and
suppresses the "priority is" fallback even when its word is not a valid
priority). -/
def clientSidePriority (text : Str) : Option Str :=
  match bangWord text with
  | some w => priorityFromWord w
  | none =>
    match priorityIsWord text with
    | some w => priorityFromWord w
    | none => none

/-- `remind`/`reminder` keyword token. -/
def remKwOK (t : Str) : Bool :=
  decide (lowerStr t = "remind".toList ∨ lowerStr t = "reminder".toList)

/-- `me`/`us` token. -/
def muOK (t : Str) : Bool :=
  decide (lowerStr t = "me".toList ∨ lowerStr t = "us".toList)

/-- `to`/`of`/`about` token. -/
def sepOK (t : Str) : Bool :=
  decide (lowerStr t = "to".toList ∨ lowerStr t = "of".toList ∨
    lowerStr t = "about".toList)

/-- The time keywords of the second reminder pattern. -/
def timeKwOK (t : Str) : Bool :=
  decide (lowerStr t = "at".toList ∨ lowerStr t = "on".toList ∨
    lowerStr t = "in".toList ∨ lowerStr t = "tomorrow".toList ∨
    lowerStr t = "next".toList ∨ lowerStr t = "this".toList)

/-- The time-reference keywords of the one-group branch (huggingface.ts
338-340). -/
def timeRefWordOK (t : Str) : Bool :=
  timeKwOK t ||
    decide (lowerStr t = "morning".toList ∨ lowerStr t = "evening".toList ∨
      lowerStr t = "afternoon".toList ∨ lowerStr t = "night".toList)

/-- `at`/`on`/`in` token (the task/time split, huggingface.ts 350). -/
def sepTimeOK (t : Str) : Bool :=
  decide (lowerStr t = "at".toList ∨ lowerStr t = "on".toList ∨
    lowerStr t = "in".toList)

/-- First word satisfying `p` that has words on both sides; the lazy
`(.+?)` capture before it takes as few words as possible. -/
def findSplitPredPost (p : Str → Bool) : List Str → Option (List Str × Str × List Str)
  | [] => none
  | t :: rest =>
    if p t ∧ rest ≠ [] then some ([], t, rest)
    else (findSplitPredPost p rest).map (fun q => (t :: q.1, q.2.1, q.2.2))

/-- As `findSplitPredPost` with a non-empty left part. -/
def findSplitPredMid (p : Str → Bool) : List Str → Option (List Str × Str × List Str)
  | [] => none
  | t :: rest =>
    (findSplitPredPost p rest).map (fun q => (t :: q.1, q.2.1, q.2.2))

/-- Anchored attempt of reminder pattern 1 (huggingface.ts 306):
`\bremind(?:er)?\s+(?:me|us)?\s+(.+?)\s+(?:to|of|about)\s+(.+?)(?:\s*$)`.
On single-spaced text the optional `me|us` must be present (both
surrounding `\s+` need whitespace of their own); the captures are the
words before and after the first `to`/`of`/`about`. -/
def remP1At : List Str → Option (Str × Str)
  | t0 :: t1 :: rest2 =>
    if remKwOK t0 ∧ muOK t1 then
      match findSplitPredMid sepOK rest2 with
      | some q => some (joinSp q.1, joinSp q.2.2)
      | none => none
    else none
  | _ => none

/-- Leftmost match of reminder pattern 1. -/
def remP1 : List Str → Option (Str × Str)
  | [] => none
  | t :: rest =>
    match remP1At (t :: rest) with
    | some r => some r
    | none => remP1 rest

/-- Anchored attempt of reminder pattern 2 (huggingface.ts 308):
`\bremind(?:er)?\s+(?:me|us)?\s+(?:to|of|about)\s+(.+?)\s+(at|on|in|tomorrow|next|this)\s+(.+?)(?:\s*$)`. -/
def remP2At : List Str → Option (Str × Str)
  | t0 :: t1 :: t2 :: rest3 =>
    if remKwOK t0 ∧ muOK t1 ∧ sepOK t2 then
      match findSplitPredMid timeKwOK rest3 with
      | some q => some (joinSp q.1, joinSp q.2.2)
      | none => none
    else none
  | _ => none

/-- Leftmost match of reminder pattern 2. -/
def remP2 : List Str → Option (Str × Str)
  | [] => none
  | t :: rest =>
    match remP2At (t :: rest) with
    | some r => some r
    | none => remP2 rest

/-- Anchored attempt of reminder pattern 3 (huggingface.ts 310):
`\bremind(?:er)?\s+(?:me|us)?\s+(?:to|of|about)?\s+(.+?)(?:\s*$)`; the
greedy optional separator is given back when nothing would remain for the
capture. -/
def remP3At : List Str → Option (List Str)
  | t0 :: t1 :: rest2 =>
    if remKwOK t0 ∧ muOK t1 then
      match rest2 with
      | [] => none
      | s :: rest3 =>
        if sepOK s then
          if rest3 ≠ [] then some rest3 else some rest2
        else some rest2
    else none
  | _ => none

/-- Leftmost match of reminder pattern 3. -/
def remP3 : List Str → Option (List Str)
  | [] => none
  | t :: rest =>
    match remP3At (t :: rest) with
    | some r => some r
    | none => remP3 rest

/-- Third iteration of the reminder-pattern loop (huggingface.ts
332-371): when the one-group text has a time reference, it is split at the
first `at`/`on`/`in` and the title is set even if chrono then fails. -/
def remLoop3 (chrono : Str → Option Int) (toks : List Str) :
    Option Int × Option Str × Bool :=
  match remP3 toks with
  | some full =>
    if full.any timeRefWordOK then
      match findSplitPredMid sepTimeOK full with
      | some q =>
        (match chrono (joinSp q.2.2) with
         | some d => (some d, some (joinSp q.1), true)
         | none => (none, some (joinSp q.1), false))
      | none => (none, none, false)
    else (none, none, false)
  | none => (none, none, false)

/-- Second iteration of the loop: pattern 2 feeds `match[1]` to chrono and
keeps `match[2]` as the title. -/
def remLoop2 (chrono : Str → Option Int) (toks : List Str) :
    Option Int × Option Str × Bool :=
  match remP2 toks with
  | some p =>
    (match chrono p.1 with
     | some d => (some d, some p.2, true)
     | none => remLoop3 chrono toks)
  | none => remLoop3 chrono toks

/-- The reminder-pattern loop (huggingface.ts 313-374): returns the date,
the extracted title, and whether extraction succeeded. -/
def remLoop (chrono : Str → Option Int) (toks : List Str) :
    Option Int × Option Str × Bool :=
  match remP1 toks with
  | some p =>
    (match chrono p.1 with
     | some d => (some d, some p.2, true)
     | none => remLoop2 chrono toks)
  | none => remLoop2 chrono toks


/-- `today|tomorrow|yesterday` token. -/
def dayWordOK (t : Str) : Bool :=
  decide (lowerStr t = "today".toList ∨ lowerStr t = "tomorrow".toList ∨
    lowerStr t = "yesterday".toList)

/-- `next|this|coming|last` token. -/
def relKwOK (t : Str) : Bool :=
  decide (lowerStr t = "next".toList ∨ lowerStr t = "this".toList ∨
    lowerStr t = "coming".toList ∨ lowerStr t = "last".toList)

/-- Weekday or `week|month|year` token. -/
def weekUnitOK (t : Str) : Bool :=
  (weekdayIndex (lowerStr t)).isSome ||
    decide (lowerStr t = "week".toList ∨ lowerStr t = "month".toList ∨
      lowerStr t = "year".toList)

/-- `in|after|before|around|at` token. -/
def inKwOK (t : Str) : Bool :=
  decide (lowerStr t = "in".toList ∨ lowerStr t = "after".toList ∨
    lowerStr t = "before".toList ∨ lowerStr t = "around".toList ∨
    lowerStr t = "at".toList)

/-- `minutes?|hours?|days?|weeks?|months?|years?` token. -/
def durUnitOK (t : Str) : Bool :=
  decide (lowerStr t = "minute".toList ∨ lowerStr t = "minutes".toList ∨
    lowerStr t = "hour".toList ∨ lowerStr t = "hours".toList ∨
    lowerStr t = "day".toList ∨ lowerStr t = "days".toList ∨
    lowerStr t = "week".toList ∨ lowerStr t = "weeks".toList ∨
    lowerStr t = "month".toList ∨ lowerStr t = "months".toList ∨
    lowerStr t = "year".toList ∨ lowerStr t = "years".toList)

/-- `at|on|before|after` token. -/
def atKwOK (t : Str) : Bool :=
  decide (lowerStr t = "at".toList ∨ lowerStr t = "on".toList ∨
    lowerStr t = "before".toList ∨ lowerStr t = "after".toList)

/-- `am`/`pm` token. -/
def ampmOK2 (t : Str) : Bool :=
  decide (lowerStr t = "am".toList ∨ lowerStr t = "pm".toList)

/-- A `\d{1,2}(:\d{2})?` word with an optional in-word `am`/`pm`
(`allowAmPm`), reusing the command-parser time word test. -/
def timeWordOK (allowAmPm : Bool) (t : Str) : Bool :=
  timeTokOK allowAmPm (lowerStr t)

/-- A `\d{1,2}(:\d{2})?(am|pm)` word (the suffix mandatory). -/
def timeWordAmPmOK (t : Str) : Bool :=
  timeWordOK true t && !timeWordOK false t

/-- Date pattern 1 (huggingface.ts 392):
`\b(today|tomorrow|yesterday)\b` removed globally. -/
def stripDayWords (toks : List Str) : List Str :=
  toks.filter (fun t => !dayWordOK t)

/-- Date pattern 2 (huggingface.ts 393):
`\b(next|this|coming|last)\s+(monday|...|sunday|week|month|year)\b`. -/
def stripRelWeek : List Str → List Str
  | [] => []
  | [t0] => [t0]
  | t0 :: t1 :: rest2 =>
    if relKwOK t0 ∧ weekUnitOK t1 then stripRelWeek rest2
    else t0 :: stripRelWeek (t1 :: rest2)

/-- Date pattern 3 (huggingface.ts 394):
`\b(in|after|before|around|at)\s+\d+\s+(minutes?|...|years?)\b`. -/
def stripInN : List Str → List Str
  | [] => []
  | [t0] => [t0]
  | [t0, t1] => [t0, t1]
  | t0 :: t1 :: t2 :: rest3 =>
    if inKwOK t0 ∧ allDigits t1 ∧ durUnitOK t2 then stripInN rest3
    else t0 :: stripInN (t1 :: t2 :: rest3)

/-- Date pattern 4 (huggingface.ts 395):
`\b(at|on|before|after)\s+\d{1,2}(:\d{2})?\s*(am|pm)?\b`; a bare `am`/`pm`
word after the digits is consumed greedily. -/
def stripAtTime : List Str → List Str
  | [] => []
  | [t0] => [t0]
  | t0 :: t1 :: rest2 =>
    if atKwOK t0 ∧ timeWordOK true t1 then
      if timeWordOK false t1 then
        match rest2 with
        | t2 :: rest3 =>
          if ampmOK2 t2 then stripAtTime rest3
          else stripAtTime (t2 :: rest3)
        | [] => []
      else stripAtTime rest2
    else t0 :: stripAtTime (t1 :: rest2)

/-- Date pattern 5 (huggingface.ts 396): `\b\d{1,2}(:\d{2})?\s*(am|pm)\b`
(the marker mandatory, in-word or as the next word). -/
def stripBareTime : List Str → List Str
  | [] => []
  | [t0] => if timeWordAmPmOK t0 then [] else [t0]
  | t0 :: t1 :: rest2 =>
    if timeWordAmPmOK t0 then stripBareTime (t1 :: rest2)
    else if timeWordOK false t0 then
      (if ampmOK2 t1 then stripBareTime rest2
       else t0 :: stripBareTime (t1 :: rest2))
    else t0 :: stripBareTime (t1 :: rest2)

/-- Lowercase letter test (the `[a-z]*` of the month patterns under
the `i` flag). -/
def isAlphaChar (c : Char) : Bool := decide ('a' ≤ c ∧ c ≤ 'z')

/-- A month word: `(jan|feb|mar|apr|may|jun|jul|aug|sep|oct|nov|dec)`
followed by letters only. -/
def monthWordOK (t : Str) : Bool :=
  let l := lowerStr t
  (["jan", "feb", "mar", "apr", "may", "jun", "jul", "aug", "sep", "oct",
    "nov", "dec"].any (fun m => decide (m.toList <+: l))) && l.all isAlphaChar

/-- A day-of-month word: `\d{1,2}(st|nd|rd|th)?`. -/
def dayNumOK (t : Str) : Bool :=
  let d := t.takeWhile isDigitChar
  let r := lowerStr (t.dropWhile isDigitChar)
  (decide (d.length = 1 ∨ d.length = 2)) &&
    decide (r = [] ∨ r = "st".toList ∨ r = "nd".toList ∨ r = "rd".toList ∨
      r = "th".toList)

/-- Date pattern 6 (huggingface.ts 397): month word then day number. -/
def stripMonthDay : List Str → List Str
  | [] => []
  | [t0] => [t0]
  | t0 :: t1 :: rest2 =>
    if monthWordOK t0 ∧ dayNumOK t1 then stripMonthDay rest2
    else t0 :: stripMonthDay (t1 :: rest2)

/-- Date pattern 7 (huggingface.ts 398): day number then month word. -/
def stripDayMonth : List Str → List Str
  | [] => []
  | [t0] => [t0]
  | t0 :: t1 :: rest2 =>
    if dayNumOK t0 ∧ monthWordOK t1 then stripDayMonth rest2
    else t0 :: stripDayMonth (t1 :: rest2)

/-- The reminder-prefix removal of the generic branch (huggingface.ts
385): `replace(/\bremind(?:er)?\s+(?:me|us)?\s+(?:to|of|about)?\s+/i, '')`;
on single-spaced text both optional groups must be present, and a word
must follow the separator to feed the final `\s+`. -/
def stripRemPrefix : List Str → List Str
  | t0 :: t1 :: t2 :: t3 :: rest4 =>
    if remKwOK t0 ∧ muOK t1 ∧ sepOK t2 then t3 :: rest4
    else t0 :: stripRemPrefix (t1 :: t2 :: t3 :: rest4)
  | toks => toks

/-- The generic title extraction (huggingface.ts 378-407): strip the
reminder prefix, then the seven date patterns in order; the final
whitespace collapse and trim are identities on the word view. -/
def genericTitle (toks : List Str) : List Str :=
  stripDayMonth (stripMonthDay (stripBareTime (stripAtTime (stripInN
    (stripRelWeek (stripDayWords (stripRemPrefix toks)))))))

/-- The noise test `/^[\s.,!?]+$/` (huggingface.ts 413). -/
def noiseOnly (s : Str) : Bool :=
  (decide (s ≠ [])) && s.all (fun c => isWSChar c || decide (c = '.') ||
    decide (c = ',') || decide (c = '!') || decide (c = '?'))

/-- `\s+` consuming the whole whitespace run (the following literals all
start with non-whitespace). -/
def wsPlus (s : Str) : Option Str :=
  match s with
  | c :: rest => if isWSChar c then some (rest.dropWhile isWSChar) else none
  | [] => none

/-- The tail of the fallback-title regex after `remind(er)?`:
`\s+(me|us)\s+(to|of|about)?` (huggingface.ts 415, note the mandatory
`me|us` and no trailing `\s+`). -/
def remPrefix2Core (r0 : Str) : Option Str :=
  match wsPlus r0 with
  | some r1 =>
    match (match stripPrefixCI "me".toList r1 with
           | some x => some x
           | none => stripPrefixCI "us".toList r1) with
    | some r2 =>
      match wsPlus r2 with
      | some r3 =>
        match (match stripPrefixCI "to".toList r3 with
               | some x => some x
               | none =>
                 match stripPrefixCI "of".toList r3 with
                 | some x => some x
                 | none => stripPrefixCI "about".toList r3) with
        | some r4 => some r4
        | none => some r3
      | none => none
    | none => none
  | none => none

/-- Anchored attempt of `remind(er)?\s+(me|us)\s+(to|of|about)?` with the
greedy `er` backtracked when needed. -/
def remPrefix2At (s : Str) : Option Str :=
  match stripPrefixCI "remind".toList s with
  | some r0 =>
    (match stripPrefixCI "er".toList r0 with
     | some rEr =>
       (match remPrefix2Core rEr with
        | some x => some x
        | none => remPrefix2Core r0)
     | none => remPrefix2Core r0)
  | none => none

/-- Replacement of the first occurrence of the fallback-title pattern by
the empty string. -/
def remPrefix2Scan (pre : Str) : Str → Str
  | [] => pre.reverse
  | c :: rest =>
    match remPrefix2At (c :: rest) with
    | some after => pre.reverse ++ after
    | none => remPrefix2Scan (c :: pre) rest

/-- `potentialTitle` (huggingface.ts 415): the text with the first
reminder-prefix occurrence removed, trimmed. -/
def potentialTitleOf (text : Str) : Str := trimStr (remPrefix2Scan [] text)

/-- The religious terms list (huggingface.ts 302). -/
def religiousTerms : List Str :=
  ["namaz".toList, "prayer".toList, "salah".toList, "salat".toList,
   "jummah".toList, "dhuhr".toList, "asr".toList, "maghrib".toList,
   "isha".toList, "fajr".toList]

/-- `text.toLowerCase().includes(term)` (huggingface.ts 426). -/
def containsCI (text pat : Str) : Bool := includesSub (lowerStr text) pat

/-- The end alternation `(?:\s*at\s*|\s*on\s*|\s*$)` of the
religious-term regex: holds at a split point whose remainder starts, after
optional whitespace, with `at`, with `on`, or ends. -/
def tailAltOK (s : Str) : Bool :=
  let s2 := s.dropWhile isWSChar
  (stripPrefixCI "at".toList s2).isSome ||
    (stripPrefixCI "on".toList s2).isSome || decide (s2 = [])

/-- The lazy `.*?` after the term: the shortest prefix whose remainder
satisfies the end alternation. -/
def midSplit : Str → Str
  | [] => []
  | c :: rest => if tailAltOK (c :: rest) then [] else c :: midSplit rest

/-- Scan of `(.*?\b<term>\b.*?)(?:\s*at\s*|\s*on\s*|\s*$)` (huggingface.ts
428): the first boundary-delimited, case-insensitive occurrence of the
term; returns the first capture. -/
def relScan (term : Str) (pre : Str) (prev : Option Char) : Str → Option Str
  | [] => none
  | c :: rest =>
    if boundaryPrev prev ∧
        (match stripPrefixCI term (c :: rest) with
         | some after => boundaryNext after
         | none => false) = true then
      match stripPrefixCI term (c :: rest) with
      | some after =>
        some (pre.reverse ++ (c :: rest).take term.length ++ midSplit after)
      | none => none
    else relScan term (c :: pre) (some c) rest

/-- `\s+` run of length at least `n` (for consecutive `\s+` with empty
optional groups between them). -/
def wsPlusMin (n : Nat) (s : Str) : Option Str :=
  if (s.takeWhile isWSChar).length ≥ n then some (s.dropWhile isWSChar)
  else none

/-- The anchored test
`^remind(?:er)?\s+(?:me|us)?\s+(?:to|of|about)?\s+` (huggingface.ts 437):
all present/absent combinations of the two optional groups, each absence
demanding an extra unit of adjacent whitespace. -/
def remAnchoredCore (r0 : Str) : Bool :=
  -- me|us and to|of|about both present
  (match wsPlus r0 with
   | some r1 =>
     match (match stripPrefixCI "me".toList r1 with
            | some x => some x
            | none => stripPrefixCI "us".toList r1) with
     | some r2 =>
       (match wsPlus r2 with
        | some r3 =>
          (match (match stripPrefixCI "to".toList r3 with
                  | some x => some x
                  | none =>
                    match stripPrefixCI "of".toList r3 with
                    | some x => some x
                    | none => stripPrefixCI "about".toList r3) with
           | some r4 => (wsPlus r4).isSome
           | none => (wsPlusMin 2 r2).isSome)
        | none => false)
     | none => (wsPlusMin 2 r0).isSome &&
         (match (match stripPrefixCI "to".toList ((r0.dropWhile isWSChar)) with
                 | some x => some x
                 | none =>
                   match stripPrefixCI "of".toList (r0.dropWhile isWSChar) with
                   | some x => some x
                   | none => stripPrefixCI "about".toList (r0.dropWhile isWSChar)) with
          | some r4 => (wsPlus r4).isSome
          | none => (wsPlusMin 3 r0).isSome)
   | none => false)

/-- Anchored reminder-prefix test, trying `reminder` before `remind`. -/
def remAnchoredTest (s : Str) : Bool :=
  match stripPrefixCI "remind".toList s with
  | some r0 =>
    (match stripPrefixCI "er".toList r0 with
     | some rEr => remAnchoredCore rEr || remAnchoredCore r0
     | none => remAnchoredCore r0)
  | none => false

/-- `charAt(0).toUpperCase() + slice(1)`. -/
def capFirst : Str → Str
  | [] => []
  | c :: rest => Char.toUpper c :: rest

/-- The religious-term override loop (huggingface.ts 424-448): the first
term contained in the text whose boundary-delimited regex matches replaces
the title by the capture (or by the capitalized term when the capture is
just the reminder prefix plus the term). -/
def relLoop (text : Str) (t1 : Str) : List Str → Str
  | [] => t1
  | term :: terms =>
    if containsCI text term then
      match relScan term [] none text with
      | some m1 =>
        let ft := trimStr m1
        if remAnchoredTest ft then capFirst term else ft
      | none => relLoop text t1 terms
    else relLoop text t1 terms

/-- The result record of the extraction tiers (huggingface.ts
`ParsedTask`). -/
structure ParsedTask where
  title : Str
  due : Option Int := none
  tags : List Str := []
  priority : Option Str := none
  reminder : Option Int := none
deriving DecidableEq, Repr

/-- Tier C, `clientSideParseTask` (huggingface.ts 223-459): tag and
priority markers, the reminder-pattern loop, the generic title fallback
with its noise check and default, the religious-term override and the
final capitalisation.  The `reminderDate` variable of the source is never
assigned, so the reminder field is always absent. -/
def clientSideParseTask (chrono : Str → Option Int) (text : Str) :
    ParsedTask :=
  let toks := splitWS text
  let st := remLoop chrono toks
  let actualTaskTitle : Str :=
    if st.2.2 then (st.2.1).getD [] else joinSp (genericTitle toks)
  let date : Option Int := if st.2.2 then st.1 else chrono text
  let t1 : Str :=
    if actualTaskTitle.length < 2 ∨ noiseOnly actualTaskTitle then
      (let pt := potentialTitleOf text
       if pt = [] then "Task".toList else pt)
    else actualTaskTitle
  let t2 := relLoop text t1 religiousTerms
  { title := capFirst t2, due := date, tags := clientSideTags text,
    priority := clientSidePriority text, reminder := none }

/-- The decoded JSON body of a successful Tier-A/B response
(huggingface.ts 157-183): `tags` is `none` when the field is not an
array, `dueStr` is `data.dueDate || data.due`. -/
structure ApiData where
  error : Bool
  commandDetected : Bool
  title : Option Str
  tags : Option (List Str)
  priority : Option Str
  dueStr : Option Str
deriving DecidableEq, Repr

/-- The possible outcomes of the `fetch` exchange (huggingface.ts
131-216): a thrown network error or timeout, a non-2xx status, a body
that fails to decode, or a decoded body. -/
inductive ApiOutcome
  | fetchThrow
  | badStatus
  | bodyThrow
  | ok (d : ApiData)
deriving DecidableEq, Repr

/-- `parseWithCohereAPI` (huggingface.ts 131-217): every failure is caught
and degrades to Tier C; a detected command returns `null`; otherwise the
response is normalised, with `iso` the `new Date(...)` parser used for
ISO-looking strings and `chrono` the chrono fallback. -/
def parseWithCohereAPI (iso chrono : Str → Option Int) (text : Str)
    (out : ApiOutcome) : Option ParsedTask :=
  match out with
  | ApiOutcome.fetchThrow => some (clientSideParseTask chrono text)
  | ApiOutcome.badStatus => some (clientSideParseTask chrono text)
  | ApiOutcome.bodyThrow => some (clientSideParseTask chrono text)
  | ApiOutcome.ok d =>
    if d.error then some (clientSideParseTask chrono text)
    else if d.commandDetected then none
    else
      let base : ParsedTask :=
        { title := d.title.getD [], tags := d.tags.getD [],
          priority := d.priority }
      match d.dueStr with
      | some ds =>
        (match (if ds.any (fun c => decide (c = 'T')) then iso ds
                else chrono ds) with
         | some d0 =>
           if ["remind".toList, "alert".toList, "notification".toList,
               "notify".toList].any
               (fun kw => includesSub (lowerStr text) kw) then
             some { base with due := some d0, reminder := some (d0 - 1800000) }
           else some { base with due := some d0 }
         | none => some base)
      | none => some base

/-- A priority value as delivered by the remote model (route.ts): a
string, an array, or null. -/
inductive PriorityVal
  | str (s : Str)
  | arr (l : List Str)
  | nullv
deriving DecidableEq, Repr

/-- The raw JSON fields consumed by the route validator (route.ts
356-437); `tags` is `none` when not an array. -/
structure RouteData where
  title : Option Str
  due : Option Str
  tags : Option (List Str)
  priority : PriorityVal
  dueDate : Option Str
deriving DecidableEq, Repr

/-- The validator's output record. -/
structure ValidatedData where
  title : Str
  due : Option Str
  tags : List Str
  priority : PriorityVal
  dueDate : Option Str
deriving DecidableEq, Repr

/-- `validateAndFixParsedData` (route.ts 356-437).  `hasExplicitTags`
tests a bare `#` character or a word-bounded "tag is"/"hashtag is";
`hasExplicitPriority` a bare `!` or a word-bounded "priority is".  The
reminder-style title rewrite (route.ts 388-399) is a no-op: its regex has
no end anchor, so the lazy capture is always empty and the guarded
assignment never fires; the string coercions on the tags array are
identities in this typed model. -/
def validateAndFixParsedData (data : RouteData) (originalText : Str) :
    ValidatedData :=
  let hasExplicitTags := originalText.any (fun c => decide (c = '#'))
    || testBoundedPhrase "tag is".toList originalText
    || testBoundedPhrase "hashtag is".toList originalText
  let hasExplicitPriority := originalText.any (fun c => decide (c = '!'))
    || testBoundedPhrase "priority is".toList originalText
  let tags0 := if hasExplicitTags then data.tags.getD [] else []
  let priority0 := if hasExplicitPriority then data.priority
    else PriorityVal.nullv
  let tags1 := if testDeleteTags originalText then [] else tags0
  let priority1 :=
    if hasExplicitPriority then
      match data.priority with
      | PriorityVal.str s =>
        if s = "high".toList ∨ s = "medium".toList ∨ s = "low".toList then
          PriorityVal.str s
        else priority0
      | PriorityVal.arr l =>
        (match l.filter (fun p => decide (p = "high".toList ∨
            p = "medium".toList ∨ p = "low".toList)) with
         | p :: _ => PriorityVal.str p
         | [] => priority0)
      | PriorityVal.nullv => priority0
    else PriorityVal.nullv
  { title := data.title.getD [], due := data.due, tags := tags1,
    priority := priority1, dueDate := data.dueDate }


/-- Without any `#` character the hash-tag scanner yields nothing. -/
lemma hashTagsGo_none_nil : ∀ (s : Str), (∀ c ∈ s, c ≠ '#') →
    hashTagsGo none s = [] := by
  intro s
  induction s with
  | nil => intro _; rfl
  | cons c rest ih =>
    intro h
    simp only [hashTagsGo]
    rw [if_neg (h c (List.mem_cons_self c rest))]
    exact ih (fun d hd => h d (List.mem_cons_of_mem c hd))

/-- Without any "tag is"/"hashtag is" occurrence the scan yields
nothing. -/
lemma tagIsScan_nil : ∀ (fuel : Nat) (s : Str),
    (∀ s2, s2 <:+ s → tagIsAt s2 = none) → tagIsScan fuel s = [] := by
  intro fuel
  induction fuel with
  | zero => intro s _; rfl
  | succ n ih =>
    intro s h
    cases s with
    | nil => rfl
    | cons c rest =>
      simp only [tagIsScan]
      rw [h (c :: rest) (List.suffix_refl _)]
      exact ih rest (fun s2 hs2 => h s2 (hs2.trans (List.suffix_cons c rest)))

/-- Tier C extracts no tags from marker-free text. -/
lemma clientSideTags_nil (text : Str) (hc : ∀ c ∈ text, c ≠ '#')
    (ht : ∀ s ∈ text.tails, tagIsAt s = none) : clientSideTags text = [] := by
  unfold clientSideTags
  by_cases hd : testDeleteTags text = true
  · rw [if_pos hd]
  · rw [if_neg hd]
    rw [tagIsScan_nil text.length text
      (fun s2 hs2 => ht s2 ((List.mem_tails s2 text).mpr hs2))]
    have hh : hashTags text = [] := hashTagsGo_none_nil text hc
    rw [hh]
    rfl

/-- Without any `!` character there is no bang-priority capture. -/
lemma bangWord_nil : ∀ (s : Str), (∀ c ∈ s, c ≠ '!') →
    bangWord s = none := by
  intro s
  induction s with
  | nil => intro _; rfl
  | cons c rest ih =>
    intro h
    simp only [bangWord]
    rw [if_neg (h c (List.mem_cons_self c rest))]
    exact ih (fun d hd => h d (List.mem_cons_of_mem c hd))

/-- Without any "priority is " occurrence there is no capture. -/
lemma priorityIsWord_nil : ∀ (s : Str),
    (∀ s2, s2 <:+ s → stripPrefixCI "priority is ".toList s2 = none) →
    priorityIsWord s = none := by
  intro s
  induction s with
  | nil => intro _; rfl
  | cons c rest ih =>
    intro h
    simp only [priorityIsWord]
    rw [h (c :: rest) (List.suffix_refl _)]
    exact ih (fun s2 hs2 => h s2 (hs2.trans (List.suffix_cons c rest)))

/-- Tier C extracts no priority from marker-free text. -/
lemma clientSidePriority_nil (text : Str) (hb : ∀ c ∈ text, c ≠ '!')
    (hp : ∀ s ∈ text.tails, stripPrefixCI "priority is ".toList s = none) :
    clientSidePriority text = none := by
  unfold clientSidePriority
  rw [bangWord_nil text hb,
    priorityIsWord_nil text
      (fun s2 hs2 => hp s2 ((List.mem_tails s2 text).mpr hs2))]

/-- An element that fails the predicate survives `dropWhile`. -/
lemma mem_dropWhile_of_neg {α : Type _} (p : α → Bool) (c : α) :
    ∀ (s : List α), c ∈ s → p c = false → c ∈ s.dropWhile p := by
  intro s
  induction s with
  | nil => intro h _; cases h
  | cons a rest ih =>
    intro hmem hpc
    by_cases hpa : p a = true
    · rw [List.dropWhile_cons_of_pos hpa]
      cases List.mem_cons.mp hmem with
      | inl he => rw [he] at hpc; rw [hpc] at hpa; cases hpa
      | inr hr => exact ih hr hpc
    · rw [List.dropWhile_cons_of_neg hpa]
      exact hmem

/-- A string containing a non-whitespace character does not trim to
empty. -/
lemma trimStr_ne_nil (s : Str) (c : Char) (hc : c ∈ s)
    (hw : isWSChar c = false) : trimStr s ≠ [] := by
  unfold trimStr
  have h1 : c ∈ s.dropWhile isWSChar := mem_dropWhile_of_neg _ c s hc hw
  have h2 : c ∈ (s.dropWhile isWSChar).reverse := List.mem_reverse.mpr h1
  have h3 : c ∈ (s.dropWhile isWSChar).reverse.dropWhile isWSChar :=
    mem_dropWhile_of_neg _ c _ h2 hw
  have h4 : c ∈ ((s.dropWhile isWSChar).reverse.dropWhile isWSChar).reverse :=
    List.mem_reverse.mpr h3
  exact List.ne_nil_of_mem h4

/-- Whitespace characters are fixed by `Char.toLower`. -/
lemma wsChar_toLower (c : Char) (h : isWSChar c = true) :
    Char.toLower c = c := by
  unfold isWSChar at h
  simp only [decide_eq_true_eq] at h
  rcases h with h | h | h | h <;> subst h <;> decide

/-- A character whose lowercase form is not whitespace is not
whitespace. -/
lemma toLower_ne_ws (t0 : Char) (h0 : isWSChar t0 = false) (c : Char)
    (hc : Char.toLower c = t0) : isWSChar c = false := by
  by_contra h
  rw [Bool.not_eq_false] at h
  rw [wsChar_toLower c h] at hc
  rw [← hc] at h0
  rw [h] at h0
  cases h0

/-- Any religious-term capture contains a non-whitespace character (the
first character of the matched term). -/
lemma relScan_has_solid (t0 : Char) (ts : Str) (h0 : isWSChar t0 = false) :
    ∀ (s pre : Str) (prev : Option Char) (m1 : Str),
      relScan (t0 :: ts) pre prev s = some m1 →
      ∃ c ∈ m1, isWSChar c = false := by
  intro s
  induction s with
  | nil => intro pre prev m1 h; exact Option.noConfusion h
  | cons c rest ih =>
    intro pre prev m1 h
    simp only [relScan] at h
    split_ifs at h with hcond
    · obtain ⟨hb, hm⟩ := hcond
      cases hsp : stripPrefixCI (t0 :: ts) (c :: rest) with
      | none => rw [hsp] at hm; simp at hm
      | some after =>
        rw [hsp] at h
        obtain rfl := Option.some.inj h
        have hcl : Char.toLower c = t0 := by
          by_contra hne
          unfold stripPrefixCI at hsp
          rw [if_neg hne] at hsp
          exact Option.noConfusion hsp
        refine ⟨c, ?_, toLower_ne_ws t0 h0 c hcl⟩
        have htake : (c :: rest).take (t0 :: ts).length
            = c :: rest.take ts.length := rfl
        rw [htake]
        simp [List.mem_append]
    · exact ih (c :: pre) (some c) m1 h

/-- Capitalisation preserves non-emptiness. -/
lemma capFirst_ne_nil (s : Str) (hs : s ≠ []) : capFirst s ≠ [] := by
  obtain ⟨c, cs, rfl⟩ := List.exists_cons_of_ne_nil hs
  simp [capFirst]

/-- The religious-term override never empties a non-empty title. -/
lemma relLoop_ne_nil (text t1 : Str) (h1 : t1 ≠ []) :
    ∀ (terms : List Str),
      (∀ term ∈ terms, term ≠ [] ∧ isWSChar (term.headD ' ') = false) →
      relLoop text t1 terms ≠ [] := by
  intro terms
  induction terms with
  | nil => intro _; exact h1
  | cons term rest ih =>
    intro hterms
    obtain ⟨hne, hws⟩ := hterms term (List.mem_cons_self _ _)
    obtain ⟨t0, ts, rfl⟩ := List.exists_cons_of_ne_nil hne
    simp only [relLoop]
    split_ifs with hct
    · cases hrs : relScan (t0 :: ts) [] none text with
      | none =>
        exact ih (fun t ht => hterms t (List.mem_cons_of_mem _ ht))
      | some m1 =>
        have hsolid := relScan_has_solid t0 ts (by simpa using hws)
          text [] none m1 hrs
        obtain ⟨c, hcm, hcw⟩ := hsolid
        show (if remAnchoredTest (trimStr m1) = true then capFirst (t0 :: ts)
          else trimStr m1) ≠ []
        split_ifs with hanch
        · simp [capFirst]
        · exact trimStr_ne_nil m1 c hcm hcw
    · exact ih (fun t ht => hterms t (List.mem_cons_of_mem _ ht))

/-- The noise-check fallback always yields a non-empty title. -/
lemma titleFallback_ne_nil (att pt : Str) :
    (if att.length < 2 ∨ noiseOnly att = true then
      (if pt = [] then "Task".toList else pt)
     else att) ≠ [] := by
  split_ifs with h1 h2
  · decide
  · exact h2
  · intro hnil
    rw [hnil] at h1
    exact h1 (Or.inl (by decide))

/-- Tier C always produces a non-empty title. -/
lemma clientSideParseTask_title_ne (chrono : Str → Option Int)
    (text : Str) : (clientSideParseTask chrono text).title ≠ [] := by
  have hterms : ∀ term ∈ religiousTerms,
      term ≠ [] ∧ isWSChar (term.headD ' ') = false := by decide
  unfold clientSideParseTask
  exact capFirst_ne_nil _
    (relLoop_ne_nil text _ (titleFallback_ne_nil _ _) religiousTerms hterms)

/-- Concrete remote response for the bare-marker counterexample. -/
def c8data : RouteData :=
  { title := some "buy milk".toList, due := none,
    tags := some ["food".toList],
    priority := PriorityVal.str "high".toList, dueDate := none }

/-- C8, counterexample: the validator keys on the BARE characters `#` and
`!`; the text `buy milk # !` contains no `#word` tag marker and no
`!word` priority marker (nothing follows either character), yet the
remote tags and priority survive validation. -/
theorem C8_bare_marker_keeps_remote_fields :
    (validateAndFixParsedData c8data "buy milk # !".toList).tags
      = ["food".toList] ∧
    (validateAndFixParsedData c8data "buy milk # !".toList).priority
      = PriorityVal.str "high".toList ∧
    hashTags "buy milk # !".toList = [] ∧
    bangWord "buy milk # !".toList = none :=
  ⟨by decide, by decide, by decide, by decide⟩

/-- C8, amended: the validator force-empties tags (nulls priority) only
when the raw text lacks a bare `#` (`!`) character and the word-bounded
"tag is"/"hashtag is" ("priority is") phrases — a bare marker character
with no word attached already lets remote fields through; Tier C, whose
markers are `#word`, "tag is"/"hashtag is", `!word` and "priority is",
returns empty tags and no priority when none of those occur, as on
"buy milk". -/
theorem C8_markers_amended (text : Str) (data : RouteData)
    (chrono : Str → Option Int) :
    (text.any (fun c => decide (c = '#')) = false →
      testBoundedPhrase "tag is".toList text = false →
      testBoundedPhrase "hashtag is".toList text = false →
      (validateAndFixParsedData data text).tags = []) ∧
    (text.any (fun c => decide (c = '!')) = false →
      testBoundedPhrase "priority is".toList text = false →
      (validateAndFixParsedData data text).priority = PriorityVal.nullv) ∧
    ((∀ c ∈ text, c ≠ '#') → (∀ s ∈ text.tails, tagIsAt s = none) →
      (clientSideParseTask chrono text).tags = []) ∧
    ((∀ c ∈ text, c ≠ '!') →
      (∀ s ∈ text.tails, stripPrefixCI "priority is ".toList s = none) →
      (clientSideParseTask chrono text).priority = none) ∧
    ((clientSideParseTask chrono "buy milk".toList).tags = [] ∧
     (clientSideParseTask chrono "buy milk".toList).priority = none) := by
  refine ⟨?_, ?_, ?_, ?_, ?_, ?_⟩
  · intro h1 h2 h3
    simp at h2 h3
    simp [validateAndFixParsedData, h1, h2, h3]
  · intro h1 h2
    simp at h2
    simp [validateAndFixParsedData, h1, h2]
  · intro hc ht
    have he : (clientSideParseTask chrono text).tags
        = clientSideTags text := rfl
    rw [he]
    exact clientSideTags_nil text hc ht
  · intro hb hp
    have he : (clientSideParseTask chrono text).priority
        = clientSidePriority text := rfl
    rw [he]
    exact clientSidePriority_nil text hb hp
  · have he : (clientSideParseTask chrono "buy milk".toList).tags
        = clientSideTags "buy milk".toList := rfl
    rw [he]
    decide
  · have he : (clientSideParseTask chrono "buy milk".toList).priority
        = clientSidePriority "buy milk".toList := rfl
    rw [he]
    decide

/-- C9: every remote failure mode — a thrown fetch (timeout, network), a
non-2xx status, a body that fails to decode, or a body carrying an error
field — is caught and degrades to the Tier C parser instead of
propagating; a detected command is the only `null` outcome; and Tier C is
total, always returning a list-valued tags field and a non-empty title. -/
theorem C9_pipeline_never_throws (iso chrono : Str → Option Int)
    (text : Str) (d : ApiData) :
    parseWithCohereAPI iso chrono text ApiOutcome.fetchThrow
      = some (clientSideParseTask chrono text) ∧
    parseWithCohereAPI iso chrono text ApiOutcome.badStatus
      = some (clientSideParseTask chrono text) ∧
    parseWithCohereAPI iso chrono text ApiOutcome.bodyThrow
      = some (clientSideParseTask chrono text) ∧
    (d.error = true →
      parseWithCohereAPI iso chrono text (ApiOutcome.ok d)
        = some (clientSideParseTask chrono text)) ∧
    (d.error = false → d.commandDetected = true →
      parseWithCohereAPI iso chrono text (ApiOutcome.ok d) = none) ∧
    (clientSideParseTask chrono text).tags = clientSideTags text ∧
    (clientSideParseTask chrono text).title ≠ [] := by
  refine ⟨rfl, rfl, rfl, ?_, ?_, rfl, clientSideParseTask_title_ne chrono text⟩
  · intro he
    simp [parseWithCohereAPI, he]
  · intro he hcd
    simp [parseWithCohereAPI, he, hcd]

end TodoApp
